import Mathlib

/-!
Verification of the schema-generation core of `pydantic/_internal/_generate_schema.py`.

The file shallowly embeds the data model and the operations of that module:
  * core schemas (`CoreSchema`, mirroring the `core_schema.*` dict constructors,
    each carrying the optional `ref`, `serialization`, union-tag metadata and
    pending-discriminator metadata keys),
  * the per-compilation definition table and in-progress set (`Defs`,
    mirroring `_Definitions`),
  * the recursive compiler for a representative fragment of the type language
    (`compile`, mirroring `generate_schema` / `_generate_schema_inner` /
    `_model_schema` / `_union_schema` / `_list_schema`),
  * the metadata-application pipeline (`applySingleAnn`, `applyAnns`,
    mirroring `_apply_single_annotation` / `_apply_annotations` /
    `_get_wrapped_inner_schema`),
  * validator and serializer application (`applyValidators`,
    `applyFieldSerializers`, `applyModelSerializers`, `wrapDefault`,
    `applyEachItemValidators`),
  * the module-level `SCHEMA_CACHE` logic of `_common_field_schema`,
  * the context-stack scopes (`_FieldNameStack.push`, `_ModelTypeStack.push`).

Python callables are represented by numeric identifiers; Python dict schemas
become an inductive with explicit optional fields for the dict keys touched by
the translated code.
-/

/-- Validator attachment mode (`before | after | plain | wrap`), as used by
`_VALIDATOR_F_MATCH` and the decorator infos. -/
inductive VMode where
  | before
  | after
  | plain
  | wrap
deriving DecidableEq, Repr

/-- Whether `inspect_validator` reports that the callable takes an info
argument (`with-info`) or not (`no-info`). -/
inductive IMode where
  | noInfo
  | withInfo
deriving DecidableEq, Repr

/-- A small universe of Python values usable as field defaults. -/
inductive PyVal where
  | intVal : Int → PyVal
  | strVal : String → PyVal
  | boolVal : Bool → PyVal
deriving DecidableEq, Repr

/-- The default payload of a `with_default_schema` node: either a plain default
value or a default factory (callable id together with the result of
`takes_validated_data_argument`). -/
inductive DefaultSpec where
  | fromValue : PyVal → DefaultSpec
  | fromFactory : Nat → Bool → DefaultSpec
deriving DecidableEq, Repr

/-- The serialization slot of a schema (`schema['serialization']`): a plain or
wrap serializer function schema with the callable id, the
`is_field_serializer` flag, the `info_arg` flag and `when_used`. -/
inductive SerSchema where
  | plainFunctionSer : Nat → Bool → Bool → String → SerSchema
  | wrapFunctionSer : Nat → Bool → Bool → String → SerSchema
deriving DecidableEq, Repr

mutual
/-- The kind-specific part of a core schema dict (the `type` key plus the
kind-specific keys). `functionNode mode info funcId inner fieldName` covers the
eight `core_schema.*_validator_function` constructors of `_VALIDATOR_F_MATCH`;
`plain` validators carry no inner schema. -/
inductive SchemaNode where
  | intNode : SchemaNode
  | noneNode : SchemaNode
  | anyNode : SchemaNode
  | listNode : CoreSchema → SchemaNode
  | setNode : CoreSchema → SchemaNode
  | frozensetNode : CoreSchema → SchemaNode
  | dictNode : CoreSchema → CoreSchema → SchemaNode
  | tupleNode : List CoreSchema → Option Nat → SchemaNode
  | nullableNode : CoreSchema → SchemaNode
  | unionNode : List CoreSchema → SchemaNode
  | taggedUnionNode : String → List CoreSchema → SchemaNode
  | modelNode : String → List (String × CoreSchema) → SchemaNode
  | defRefNode : String → SchemaNode
  | definitionsNode : CoreSchema → List CoreSchema → SchemaNode
  | withDefaultNode : CoreSchema → DefaultSpec → Bool → SchemaNode
  | functionNode : VMode → IMode → Nat → Option CoreSchema → Option String → SchemaNode

/-- A core schema dict: its kind-specific part plus the optional `ref` key, the
optional `serialization` key, and the two metadata keys the translated code
reads or writes (the tagged-union tag and the deferred-discriminator marker
recorded by `set_discriminator_in_metadata`). -/
inductive CoreSchema where
  | mk : SchemaNode → Option String → Option SerSchema → Option String → Option String → CoreSchema
end

/-- The `type` tag of the schema node (`schema['type']`). -/
def SchemaNode.typeName : SchemaNode → String
  | .intNode => "int"
  | .noneNode => "none"
  | .anyNode => "any"
  | .listNode _ => "list"
  | .setNode _ => "set"
  | .frozensetNode _ => "frozenset"
  | .dictNode _ _ => "dict"
  | .tupleNode _ _ => "tuple"
  | .nullableNode _ => "nullable"
  | .unionNode _ => "union"
  | .taggedUnionNode _ _ => "tagged-union"
  | .modelNode _ _ => "model"
  | .defRefNode _ => "definition-ref"
  | .definitionsNode _ _ => "definitions"
  | .withDefaultNode _ _ _ => "default"
  | .functionNode _ _ _ _ _ => "function"

def CoreSchema.node : CoreSchema → SchemaNode
  | .mk n _ _ _ _ => n

def CoreSchema.ref : CoreSchema → Option String
  | .mk _ r _ _ _ => r

def CoreSchema.serialization : CoreSchema → Option SerSchema
  | .mk _ _ s _ _ => s

def CoreSchema.unionTag : CoreSchema → Option String
  | .mk _ _ _ t _ => t

def CoreSchema.pendingDisc : CoreSchema → Option String
  | .mk _ _ _ _ p => p

def CoreSchema.typeName (s : CoreSchema) : String :=
  s.node.typeName

def CoreSchema.setNode : CoreSchema → SchemaNode → CoreSchema
  | .mk _ r s t p, n => .mk n r s t p

def CoreSchema.setRef : CoreSchema → Option String → CoreSchema
  | .mk n _ s t p, r => .mk n r s t p

def CoreSchema.setSerialization : CoreSchema → Option SerSchema → CoreSchema
  | .mk n r _ t p, s => .mk n r s t p

def CoreSchema.setPendingDisc : CoreSchema → Option String → CoreSchema
  | .mk n r s t _, p => .mk n r s t p

/-- A fresh schema dict with only the kind-specific keys set, as built by the
bare `core_schema.*` constructors. -/
def mkS (n : SchemaNode) : CoreSchema := .mk n none none none none

/-- `core_schema.definition_reference_schema(ref)`. -/
def defRefSchema (r : String) : CoreSchema := mkS (.defRefNode r)

/-! ## Context stacks (`_FieldNameStack` / `_ModelTypeStack`)

Both classes expose `push` as a `@contextmanager` generator with no
`try/finally`: the entry appends to the Python list, the body runs at the
`yield`, and the `pop` after the `yield` runs only when the body returns
normally. An exception that propagates out of the body escapes the generator
before the `pop` line. The scope is modelled as a combinator over an explicit
stack state; the body reports either a value or an escaping exception, in both
cases together with the stack state it leaves behind. -/

/-- `_FieldNameStack.push(field_name)` used as a `with` scope around `body`.
The entry is appended to the end of the list; the `pop` after the `yield` runs
only on the normal-return path. -/
def fieldNameStackPush {α : Type} (stack : List String) (fieldName : String)
    (body : List String → Except Nat α × List String) : Except Nat α × List String :=
  match body (stack ++ [fieldName]) with
  | (.ok a, s2) => (.ok a, s2.dropLast)
  | (.error e, s2) => (.error e, s2)

/-- `_ModelTypeStack.push(type_obj)` used as a `with` scope around `body`;
the pushed model type is identified by name. Same generator shape as
`_FieldNameStack.push`. -/
def modelTypeStackPush {α : Type} (stack : List String) (typeName : String)
    (body : List String → Except Nat α × List String) : Except Nat α × List String :=
  match body (stack ++ [typeName]) with
  | (.ok a, s2) => (.ok a, s2.dropLast)
  | (.error e, s2) => (.error e, s2)

/-- `_FieldNameStack.get`. -/
def fieldNameStackGet (stack : List String) : Option String :=
  stack.getLast?

/-! ## The module-level field-results cache (`SCHEMA_CACHE`)

`SCHEMA_CACHE` is declared at module scope (`SCHEMA_CACHE: dict[int,
core_schema.CoreSchema] = {}`), so it is shared by every `GenerateSchema`
instance in the process. `_common_field_schema` consults it keyed by
`hash((field_info.cache_key, self._config_wrapper.use_enum_values))`; the hash
pair is modelled as the pair itself. -/

abbrev CacheKey := Nat × Bool

abbrev SchemaCache := List (CacheKey × CoreSchema)

/-- The slice of `ConfigWrapper` read on the `_common_field_schema` path for a
plain field: `use_enum_values` (which participates in the cache key) and
`json_encoders` (read by `_add_custom_serialization_from_json_encoders` at the
end of `_apply_annotations`, and absent from the cache key). -/
structure FieldConfig where
  useEnumValues : Bool
  jsonEncoders : List (String × Nat)
deriving Repr

/-- `_add_custom_serialization_from_json_encoders`: if any encoders are
configured and the schema has no `serialization` yet, the first encoder
matching the type is attached as a plain serializer with `when_used='json'`.
The MRO walk is reduced to a direct lookup on the type name. -/
def addCustomSerializationFromJsonEncoders (jsonEncoders : List (String × Nat))
    (tp : String) (schema : CoreSchema) : CoreSchema :=
  if jsonEncoders.isEmpty then schema
  else if schema.serialization.isSome then schema
  else
    match jsonEncoders.lookup tp with
    | some enc => schema.setSerialization (some (.plainFunctionSer enc false false "json"))
    | none => schema

/-- The field-level inputs read by the cached branch of
`_common_field_schema`: the evaluated annotation (by name), the content-derived
`field_info.cache_key`, and the discriminator (whose presence selects the
uncached branch). -/
structure FieldInfoC where
  sourceTypeName : String
  cacheKey : Option Nat
  discriminator : Option String
deriving Repr

/-- The base schema produced by `_generate_schema_inner` for the named
primitive annotations used on this path (`match_type` lines for `int` and
`NoneType`). -/
def baseSchemaForName (tpName : String) : CoreSchema :=
  if tpName = "int" then mkS .intNode
  else if tpName = "none" then mkS .noneNode
  else mkS .anyNode

/-- `self._apply_annotations(source_type, annotations)` for a field whose
metadata list is empty: the inner handler builds the base schema, and the final
line of `_apply_annotations` runs
`_add_custom_serialization_from_json_encoders(self._config_wrapper.json_encoders, ...)`,
making the result depend on the compiler instance's configuration. -/
def applyAnnsForField (cfg : FieldConfig) (fi : FieldInfoC) : CoreSchema :=
  addCustomSerializationFromJsonEncoders cfg.jsonEncoders fi.sourceTypeName
    (baseSchemaForName fi.sourceTypeName)

/-- The schema-computation block of `_common_field_schema` (the body of the
`with self.field_name_stack.push(name)` scope, lines 1264-1286): the
discriminator branch bypasses the cache; otherwise the freshly computed schema
is discarded in favour of a `SCHEMA_CACHE` lookup on
`(field_info.cache_key, use_enum_values)`, recomputing and inserting via
`setdefault` on a miss. Returns the schema together with the updated
process-wide cache. -/
def commonFieldCachedSchema (cache : SchemaCache) (cfg : FieldConfig)
    (fi : FieldInfoC) : CoreSchema × SchemaCache :=
  if fi.discriminator.isSome then
    (applyAnnsForField cfg fi, cache)
  else
    -- `schema = self._apply_annotations(...)`: computed and then overwritten
    -- by the cache lookup below (or by `None`).
    let _schema0 := applyAnnsForField cfg fi
    match fi.cacheKey with
    | some k =>
      let key : CacheKey := (k, cfg.useEnumValues)
      match cache.lookup key with
      | some s => (s, cache)
      | none =>
        let s := applyAnnsForField cfg fi
        (s, cache ++ [(key, s)])
    | none =>
      let s := applyAnnsForField cfg fi
      (s, cache)

/-! ### Claims about the cache and the context stacks -/

/-- Concrete field and configurations exhibiting the cross-request behaviour of
the module-level `SCHEMA_CACHE`: the same field content compiled under two
configurations that agree on `use_enum_values` but differ in `json_encoders`. -/
def c1Field : FieldInfoC := ⟨"int", some 1, none⟩

def c1CfgFirst : FieldConfig := ⟨false, []⟩

def c1CfgSecond : FieldConfig := ⟨false, [("int", 7)]⟩

/-- C1: `SCHEMA_CACHE` is process-wide, not scoped to one compilation request.
A second, fresh compilation request replays the schema cached by an earlier
request (first conjunct), and that schema differs from what the same request
computes in a fresh process (second conjunct: the second request's
`json_encoders` never get applied), so the output of a fresh compiler instance
is not independent of compilations performed earlier in the process. -/
theorem schema_cache_cross_request_leakage :
    (commonFieldCachedSchema (commonFieldCachedSchema [] c1CfgFirst c1Field).2
        c1CfgSecond c1Field).1
      = (commonFieldCachedSchema [] c1CfgFirst c1Field).1
    ∧ (commonFieldCachedSchema (commonFieldCachedSchema [] c1CfgFirst c1Field).2
        c1CfgSecond c1Field).1
      ≠ (commonFieldCachedSchema [] c1CfgSecond c1Field).1 := by
  constructor
  · rfl
  · intro h
    exact Option.noConfusion (congrArg CoreSchema.serialization h)

/-- C2 counterexample: a body that raises leaves the pushed entry on the field
name stack — starting from the empty stack, the scope exits with `["f"]`, not
with the original empty stack, so the push is not matched by a pop on the
exception path. -/
theorem field_name_stack_push_not_popped_on_error :
    fieldNameStackPush ([] : List String) "f"
        (fun st => ((Except.error 0 : Except Nat Unit), st))
      = (Except.error 0, ["f"])
    ∧ (["f"] : List String) ≠ ([] : List String) := by
  exact ⟨rfl, by simp⟩

/-- C2 (amended): for both context stacks, a push is matched by exactly one pop
on every normal exit of the scope (in particular the entry itself is removed
when the body leaves the stack as it found it), while on an exit where an
exception propagates out of the scope the pop is skipped and the stack is left
exactly as the body left it — with the pushed entry still present whenever the
body preserved the stack. -/
theorem context_stack_push_pop_discipline :
    (∀ (α : Type) (stack : List String) (n : String)
        (body : List String → Except Nat α × List String) (a : α) (s2 : List String),
        body (stack ++ [n]) = (.ok a, s2) →
        fieldNameStackPush stack n body = (.ok a, s2.dropLast))
    ∧ (∀ (α : Type) (stack : List String) (n : String)
        (body : List String → Except Nat α × List String) (a : α),
        body (stack ++ [n]) = (.ok a, stack ++ [n]) →
        fieldNameStackPush stack n body = (.ok a, stack))
    ∧ (∀ (α : Type) (stack : List String) (n : String)
        (body : List String → Except Nat α × List String) (e : Nat) (s2 : List String),
        body (stack ++ [n]) = (.error e, s2) →
        fieldNameStackPush stack n body = (.error e, s2))
    ∧ (∀ (α : Type) (stack : List String) (n : String)
        (body : List String → Except Nat α × List String) (e : Nat),
        body (stack ++ [n]) = (.error e, stack ++ [n]) →
        fieldNameStackPush stack n body = (.error e, stack ++ [n]))
    ∧ (∀ (α : Type) (stack : List String) (n : String)
        (body : List String → Except Nat α × List String) (a : α) (s2 : List String),
        body (stack ++ [n]) = (.ok a, s2) →
        modelTypeStackPush stack n body = (.ok a, s2.dropLast))
    ∧ (∀ (α : Type) (stack : List String) (n : String)
        (body : List String → Except Nat α × List String) (e : Nat) (s2 : List String),
        body (stack ++ [n]) = (.error e, s2) →
        modelTypeStackPush stack n body = (.error e, s2)) := by
  refine ⟨?_, ?_, ?_, ?_, ?_, ?_⟩
  · intro α stack n body a s2 h
    simp [fieldNameStackPush, h]
  · intro α stack n body a h
    simp [fieldNameStackPush, h]
  · intro α stack n body e s2 h
    simp [fieldNameStackPush, h]
  · intro α stack n body e h
    simp [fieldNameStackPush, h]
  · intro α stack n body a s2 h
    simp [modelTypeStackPush, h]
  · intro α stack n body e s2 h
    simp [modelTypeStackPush, h]

/-- Witness for `context_stack_push_pop_discipline` at a concrete body. -/
theorem context_stack_push_pop_discipline_witness :
    fieldNameStackPush ([] : List String) "f"
        (fun st => ((Except.ok 3 : Except Nat Nat), st))
      = (Except.ok 3, ([] : List String)) :=
  context_stack_push_pop_discipline.2.1 Nat [] "f"
    (fun st => ((Except.ok 3 : Except Nat Nat), st)) 3 rfl

/-! ## The recursive compiler on a representative type language

`PyType` is the fragment of the Python type language exercised by the
recursion/cycle claims: primitives, `list[...]`, model classes (composite
records) and unions (`Optional[X]` is `unionTy [X, noneTy]`). A model class's
field declarations are read from an environment, mirroring
`getattr(cls, '__pydantic_fields__', {})` (a class with no entry has no
fields). -/

inductive PyType where
  | intTy : PyType
  | noneTy : PyType
  | listTy : PyType → PyType
  | modelTy : String → PyType
  | unionTy : List PyType → PyType
deriving Repr

mutual
/-- Structural size of a type descriptor (used for fuel bounds). -/
def PyType.size : PyType → Nat
  | .intTy => 1
  | .noneTy => 1
  | .listTy e => e.size + 1
  | .modelTy _ => 1
  | .unionTy args => PyType.sizeList args + 1

/-- Sum of sizes of a list of type descriptors. -/
def PyType.sizeList : List PyType → Nat
  | [] => 0
  | t :: ts => t.size + PyType.sizeList ts
end

mutual
/-- The model-class names occurring in a type descriptor. -/
def PyType.modelNames : PyType → List String
  | .intTy => []
  | .noneTy => []
  | .listTy e => e.modelNames
  | .modelTy c => [c]
  | .unionTy args => PyType.modelNamesList args

/-- The model-class names occurring in a list of type descriptors. -/
def PyType.modelNamesList : List PyType → List String
  | [] => []
  | t :: ts => t.modelNames ++ PyType.modelNamesList ts
end

/-- The class environment: each model class's ordered field declarations
(`cls.__pydantic_fields__` as name/annotation pairs). -/
abbrev GEnv := List (String × List (String × PyType))

/-- `getattr(cls, '__pydantic_fields__', {})`. -/
def fieldsOf (env : GEnv) (c : String) : List (String × PyType) :=
  (env.lookup c).getD []

/-- `get_type_ref(tp)`: the stable reference string minted for a nameable
type. -/
def getTypeRef (c : String) : String := "model:" ++ c

/-- `_Definitions`: the in-progress `seen` set and the completed `definitions`
table of one compilation request. -/
structure Defs where
  seen : List String
  definitions : List (String × CoreSchema)

/-- Python dict assignment `definitions[ref] = s`, preserving insertion order
for existing keys. -/
def insertDef (defs : List (String × CoreSchema)) (r : String) (s : CoreSchema) :
    List (String × CoreSchema) :=
  if (defs.lookup r).isSome then
    defs.map (fun p => if p.1 = r then (r, s) else p)
  else defs ++ [(r, s)]

/-- Whether a ref is guarded against re-entrant expansion: either currently
in-progress (`ref in self.seen`) or already completed
(`ref in self.definitions`) — the test of `_Definitions.get_schema_or_ref`. -/
def Defs.guarded (st : Defs) (r : String) : Bool :=
  st.seen.contains r || (st.definitions.lookup r).isSome

/-- The field loop of `_model_schema`:
`{k: self._generate_md_field_schema(k, v, decorators) for k, v in fields.items()}`,
threading the definition table left to right; `step` is the recursive entry
point into `generate_schema`. -/
def compileFieldsWith (step : Defs → PyType → Option (CoreSchema × Defs)) :
    Defs → List (String × PyType) → Option (List (String × CoreSchema) × Defs)
  | st, [] => some ([], st)
  | st, (n, t) :: rest =>
    match step st t with
    | none => none
    | some (s, st1) =>
      match compileFieldsWith step st1 rest with
      | none => none
      | some (fs, st2) => some ((n, s) :: fs, st2)

/-- The test `arg is None or arg is _typing_extra.NoneType` of
`_union_schema`. -/
def PyType.isNoneType : PyType → Bool
  | .noneTy => true
  | _ => false

/-- The member loop of `_union_schema`: `None`/`NoneType` members set the
nullability flag and are dropped; every other member is compiled in
declaration order by `step`, the recursive entry point into
`generate_schema`. -/
def compileUnionArgsWith (step : Defs → PyType → Option (CoreSchema × Defs)) :
    Defs → List PyType → Option (List CoreSchema × Bool × Defs)
  | st, [] => some ([], false, st)
  | st, a :: rest =>
    if a.isNoneType then
      match compileUnionArgsWith step st rest with
      | none => none
      | some (cs, _, st1) => some (cs, true, st1)
    else
      match step st a with
      | none => none
      | some (s, st1) =>
        match compileUnionArgsWith step st1 rest with
        | none => none
        | some (cs, nb, st2) => some (s :: cs, nb, st2)

/-- `generate_schema`, restricted to the modelled fragment, with explicit fuel
(the Python recursion is unbounded; termination is settled by
`compile_terminates_with_cycle_guard`, which shows a computable fuel bound is
never exhausted). Dispatch follows `_generate_schema_inner` / `match_type`:
model classes go through `_model_schema` under `defs.get_schema_or_ref`
(return a reference node when the ref is in-progress or completed; otherwise
mark in-progress, expand the fields, store the finished node in the definition
table, release the in-progress mark, and hand back a reference node); `list`
recurses once into the element type; unions go through `_union_schema`
(collect the non-`None` member schemas in declaration order and the
nullability flag; a single remaining member collapses without a union node;
the nullable wrapper is applied outermost). None of the modelled constructs
attaches `TAGGED_UNION_TAG_KEY` metadata, so every union member is
untagged. -/
def compile (env : GEnv) : Nat → Defs → PyType → Option (CoreSchema × Defs)
  | 0, _, _ => none
  | _ + 1, st, .intTy => some (mkS .intNode, st)
  | _ + 1, st, .noneTy => some (mkS .noneNode, st)
  | fuel + 1, st, .listTy e =>
    match compile env fuel st e with
    | none => none
    | some (s, st1) => some (mkS (.listNode s), st1)
  | fuel + 1, st, .unionTy args =>
    match compileUnionArgsWith (compile env fuel) st args with
    | none => none
    | some (choices, nullable, st1) =>
      let s :=
        match choices with
        | [c] => c
        | cs => mkS (.unionNode cs)
      some ((if nullable then mkS (.nullableNode s) else s), st1)
  | fuel + 1, st, .modelTy c =>
    let ref := getTypeRef c
    if ref ∈ st.seen ∨ (st.definitions.lookup ref).isSome then
      some (defRefSchema ref, st)
    else
      let st1 : Defs := ⟨st.seen ++ [ref], st.definitions⟩
      match compileFieldsWith (compile env fuel) st1 (fieldsOf env c) with
      | none => none
      | some (fieldSchemas, st2) =>
        let ms : CoreSchema := .mk (.modelNode c fieldSchemas) (some ref) none none none
        let st3 : Defs := ⟨st2.seen.erase ref, insertDef st2.definitions ref ms⟩
        some (defRefSchema ref, st3)

/-! ### Termination of the recursive compiler (C4)

The Python recursion has no fuel; its termination argument is that each model
ref enters the in-progress set before its fields are expanded, so the set of
unguarded refs strictly shrinks at every model expansion while the rest of the
recursion is structural. The lemmas below make that argument explicit:
`compileBound` is a computable fuel amount and the main invariant shows
`compile` never exhausts it. -/

theorem PyType.one_le_size (t : PyType) : 1 ≤ t.size := by
  cases t <;> (simp only [PyType.size]; omega)

/-- State evolution in the compiler only ever adds guards: a ref, once
completed, stays in the definition table, and while being expanded it sits in
the in-progress set. -/
def GuardedLe (st st2 : Defs) : Prop :=
  ∀ r, st.guarded r = true → st2.guarded r = true

theorem GuardedLe.refl (st : Defs) : GuardedLe st st := fun _ h => h

theorem GuardedLe.trans {a b c : Defs} (h1 : GuardedLe a b) (h2 : GuardedLe b c) :
    GuardedLe a c := fun r hr => h2 r (h1 r hr)

/-- The number of refs from `U` not yet guarded by the state. -/
def unguardedCount (U : List String) (st : Defs) : Nat :=
  U.countP (fun r => !(st.guarded r))

theorem unguardedCount_le_of_guardedLe (U : List String) {st st2 : Defs}
    (h : GuardedLe st st2) : unguardedCount U st2 ≤ unguardedCount U st := by
  refine List.countP_mono_left (fun r _ hr => ?_)
  simp only [Bool.not_eq_true'] at hr ⊢
  cases hsg : st.guarded r
  · rfl
  · exact absurd (h r hsg) (by simp [hr])

theorem Defs.guarded_push (st : Defs) (ref x : String) :
    (Defs.mk (st.seen ++ [ref]) st.definitions).guarded x
      = (st.guarded x || decide (x = ref)) := by
  simp [Defs.guarded, Bool.or_assoc, Bool.or_comm, Bool.or_left_comm]

theorem guardedLe_push (st : Defs) (ref : String) :
    GuardedLe st (Defs.mk (st.seen ++ [ref]) st.definitions) := by
  intro r hr
  rw [Defs.guarded_push]
  simp [hr]

theorem Defs.guarded_eq_true_iff (st : Defs) (r : String) :
    st.guarded r = true ↔ r ∈ st.seen ∨ (st.definitions.lookup r).isSome := by
  simp [Defs.guarded]

/-- Marking an unguarded ref from `U` as in-progress decreases the unguarded
count by exactly one. -/
theorem unguardedCount_push_seen (U : List String) (st : Defs) (ref : String)
    (hU : U.Nodup) (hmem : ref ∈ U) (hung : st.guarded ref = false) :
    unguardedCount U (Defs.mk (st.seen ++ [ref]) st.definitions) + 1
      = unguardedCount U st := by
  induction U with
  | nil => cases hmem
  | cons h t ih =>
    rcases List.nodup_cons.mp hU with ⟨hh, ht⟩
    rcases List.mem_cons.mp hmem with rfl | hm
    · have h1 : (!(Defs.mk (st.seen ++ [ref]) st.definitions).guarded ref) = false := by
        simp [Defs.guarded_push]
      have h2 : (!(st.guarded ref)) = true := by simp [hung]
      have hc : t.countP (fun r => !(Defs.mk (st.seen ++ [ref]) st.definitions).guarded r)
          = t.countP (fun r => !(st.guarded r)) := by
        refine List.countP_congr (fun x hx => ?_)
        have hne : x ≠ ref := fun e => hh (e ▸ hx)
        simp [Defs.guarded_push, hne]
      simp only [unguardedCount, List.countP_cons, h1, h2, hc]
      simp
    · by_cases he : h = ref
      · exact absurd (he ▸ hm) hh
      · have hrec := ih ht hm
        simp only [unguardedCount, List.countP_cons] at hrec ⊢
        have hsame : (!(Defs.mk (st.seen ++ [ref]) st.definitions).guarded h)
            = (!(st.guarded h)) := by
          simp [Defs.guarded_push, he]
        rw [hsame]
        omega

theorem lookup_cons {β : Type} (k : String) (v : β) (t : List (String × β))
    (x : String) : ((k, v) :: t).lookup x = if x = k then some v else t.lookup x := by
  by_cases h : x = k
  · simp [List.lookup, h]
  · have hb : (x == k) = false := by simp [h]
    simp [List.lookup, hb, h]

theorem lookup_append_right_of_notfound {β : Type} (l1 l2 : List (String × β))
    (x : String) (h : l1.lookup x = none) : (l1 ++ l2).lookup x = l2.lookup x := by
  induction l1 with
  | nil => rfl
  | cons hd t ih =>
    by_cases hk : (x == hd.1) = true
    · simp [List.lookup, hk] at h
    · simp only [Bool.not_eq_true] at hk
      simp only [List.cons_append, List.lookup, hk] at h ⊢
      exact ih h

theorem lookup_append_left_of_found {β : Type} (l1 l2 : List (String × β))
    (x : String) (v : β) (h : l1.lookup x = some v) :
    (l1 ++ l2).lookup x = some v := by
  induction l1 with
  | nil => cases h
  | cons hd t ih =>
    by_cases hk : (x == hd.1) = true
    · simp only [List.cons_append, List.lookup, hk] at h ⊢
      exact h
    · simp only [Bool.not_eq_true] at hk
      simp only [List.cons_append, List.lookup, hk] at h ⊢
      exact ih h

theorem lookup_mapReplace_ne (t : List (String × CoreSchema)) (r : String)
    (s : CoreSchema) (x : String) (hx : x ≠ r) :
    (t.map (fun p => if p.1 = r then (r, s) else p)).lookup x = t.lookup x := by
  induction t with
  | nil => rfl
  | cons hd tl ih =>
    obtain ⟨k, v⟩ := hd
    rw [List.map_cons]
    by_cases hk : k = r
    · rw [show (if (k, v).1 = r then (r, s) else (k, v)) = (r, s) from by simp [hk]]
      rw [lookup_cons, lookup_cons, if_neg hx, if_neg (fun e => hx (e.trans hk))]
      exact ih
    · rw [show (if (k, v).1 = r then (r, s) else (k, v)) = (k, v) from by simp [hk]]
      rw [lookup_cons, lookup_cons]
      by_cases hxk : x = k
      · simp [hxk]
      · rw [if_neg hxk, if_neg hxk]
        exact ih

theorem lookup_mapReplace_self (t : List (String × CoreSchema)) (r : String)
    (s : CoreSchema) (hin : (t.lookup r).isSome) :
    (t.map (fun p => if p.1 = r then (r, s) else p)).lookup r = some s := by
  induction t with
  | nil => simp [List.lookup] at hin
  | cons hd tl ih =>
    obtain ⟨k, v⟩ := hd
    rw [List.map_cons]
    by_cases hk : k = r
    · rw [show (if (k, v).1 = r then (r, s) else (k, v)) = (r, s) from by simp [hk]]
      rw [lookup_cons, if_pos rfl]
    · have hrk : ¬ r = k := fun e => hk e.symm
      rw [show (if (k, v).1 = r then (r, s) else (k, v)) = (k, v) from by simp [hk]]
      rw [lookup_cons, if_neg hrk]
      rw [lookup_cons, if_neg hrk] at hin
      exact ih hin

/-- Characterization of Python dict assignment on the definitions table. -/
theorem lookup_insertDef (defs : List (String × CoreSchema)) (r : String)
    (s : CoreSchema) (x : String) :
    (insertDef defs r s).lookup x = if x = r then some s else defs.lookup x := by
  unfold insertDef
  by_cases hin : (defs.lookup r).isSome
  · simp only [hin, if_true]
    by_cases hx : x = r
    · subst hx
      simp [lookup_mapReplace_self defs x s hin]
    · simp [hx, lookup_mapReplace_ne defs r s x hx]
  · have hinf : (defs.lookup r).isSome = false := by
      cases hl : defs.lookup r
      · rfl
      · rw [hl] at hin; simp at hin
    simp only [hinf, Bool.false_eq_true, if_false]
    by_cases hx : x = r
    · subst hx
      have hnone : defs.lookup x = none := by
        cases hl : defs.lookup x
        · rfl
        · rw [hl] at hinf; simp at hinf
      rw [lookup_append_right_of_notfound defs _ x hnone]
      simp [List.lookup]
    · cases hl : defs.lookup x with
      | none =>
        rw [lookup_append_right_of_notfound defs _ x hl]
        have hxr : (x == r) = false := by simp [hx]
        simp [List.lookup, hxr, hx]
      | some v =>
        rw [lookup_append_left_of_found defs _ x v hl]
        simp [hx]

/-- Closing a model expansion (erase the in-progress mark, store the finished
definition) only adds guards on top of the expansion-end state. -/
theorem guardedLe_model_close (st2 : Defs) (ref : String) (ms : CoreSchema) :
    GuardedLe st2 ⟨st2.seen.erase ref, insertDef st2.definitions ref ms⟩ := by
  intro r hr
  rw [Defs.guarded_eq_true_iff] at hr ⊢
  by_cases hx : r = ref
  · subst hx
    right
    rw [lookup_insertDef]
    simp
  · rcases hr with hseen | hdef
    · left
      exact (List.mem_erase_of_ne hx).mpr hseen
    · right
      rw [lookup_insertDef]
      simp [hx, hdef]

/-- Combined size of a field list's declared types. -/
def fieldsSize (fields : List (String × PyType)) : Nat :=
  PyType.sizeList (fields.map Prod.snd)

/-- Combined size of every field declaration in the environment; bounds the
direct work of any single model expansion. -/
def envFieldsSize (env : GEnv) : Nat :=
  (env.map (fun e => fieldsSize e.2)).sum

theorem fieldsSize_lookup_le (env : GEnv) (c : String) (fs : List (String × PyType))
    (h : env.lookup c = some fs) : fieldsSize fs ≤ envFieldsSize env := by
  induction env with
  | nil => cases h
  | cons hd t ih =>
    obtain ⟨k, v⟩ := hd
    rw [lookup_cons] at h
    by_cases hk : c = k
    · rw [if_pos hk] at h
      cases h
      simp [envFieldsSize]
    · rw [if_neg hk] at h
      have := ih h
      simp only [envFieldsSize, List.map_cons, List.sum_cons] at this ⊢
      omega

theorem fieldsSize_fieldsOf_le (env : GEnv) (c : String) :
    fieldsSize (fieldsOf env c) ≤ envFieldsSize env := by
  unfold fieldsOf
  cases hl : env.lookup c with
  | none => simp [fieldsSize, PyType.sizeList]
  | some fs => simpa using fieldsSize_lookup_le env c fs hl

theorem mem_modelNamesList {m : String} {t : PyType} {args : List PyType}
    (ha : t ∈ args) (hm : m ∈ t.modelNames) : m ∈ PyType.modelNamesList args := by
  induction args with
  | nil => cases ha
  | cons hd tl ih =>
    rcases List.mem_cons.mp ha with rfl | h
    · simp only [PyType.modelNamesList, List.mem_append]
      exact Or.inl hm
    · simp only [PyType.modelNamesList, List.mem_append]
      exact Or.inr (ih h)

/-- All model names mentioned in the environment's field declarations. -/
def envModelNames (env : GEnv) : List String :=
  env.flatMap (fun e => (e.2.map Prod.snd).flatMap PyType.modelNames)

/-- The ref universe for a top-level compilation of `t` against `env`: every
ref the recursion can ever try to expand. -/
def uRefs (env : GEnv) (t : PyType) : List String :=
  ((t.modelNames ++ envModelNames env).map getTypeRef).dedup

theorem uRefs_nodup (env : GEnv) (t : PyType) : (uRefs env t).Nodup :=
  List.nodup_dedup _

theorem mem_uRefs_of_root {env : GEnv} {t : PyType} {m : String}
    (hm : m ∈ t.modelNames) : getTypeRef m ∈ uRefs env t := by
  unfold uRefs
  rw [List.mem_dedup]
  exact List.mem_map_of_mem _ (List.mem_append.mpr (Or.inl hm))

theorem lookup_imp_mem_map_snd {β : Type} (l : List (String × β)) (c : String)
    (v : β) (h : l.lookup c = some v) : v ∈ l.map Prod.snd := by
  induction l with
  | nil => cases h
  | cons hd t ih =>
    obtain ⟨k, w⟩ := hd
    rw [lookup_cons] at h
    by_cases hk : c = k
    · rw [if_pos hk] at h
      cases h
      simp
    · rw [if_neg hk] at h
      simp only [List.map_cons, List.mem_cons]
      exact Or.inr (ih h)

theorem mem_uRefs_of_env {env : GEnv} {t : PyType} {c : String}
    {fs : List (String × PyType)} {n : String} {τ : PyType} {m : String}
    (hc : env.lookup c = some fs) (hf : (n, τ) ∈ fs) (hm : m ∈ τ.modelNames) :
    getTypeRef m ∈ uRefs env t := by
  unfold uRefs
  rw [List.mem_dedup]
  refine List.mem_map_of_mem _ (List.mem_append.mpr (Or.inr ?_))
  unfold envModelNames
  have hfs : fs ∈ env.map Prod.snd := lookup_imp_mem_map_snd env c fs hc
  rcases List.mem_map.mp hfs with ⟨e, he, hesnd⟩
  refine List.mem_flatMap.mpr ⟨e, he, ?_⟩
  refine List.mem_flatMap.mpr ⟨τ, ?_, hm⟩
  rw [hesnd]
  exact List.mem_map_of_mem _ hf

theorem fieldsOf_closure (env : GEnv) (t : PyType) (c : String) :
    ∀ n τ, (n, τ) ∈ fieldsOf env c → ∀ m ∈ τ.modelNames,
      getTypeRef m ∈ uRefs env t := by
  intro n τ hf m hm
  unfold fieldsOf at hf
  cases hl : env.lookup c with
  | none => rw [hl] at hf; cases hf
  | some fs =>
    rw [hl] at hf
    simp only [Option.getD_some] at hf
    exact mem_uRefs_of_env hl hf hm

/-- Main fuel-sufficiency invariant, by induction on fuel: with the
per-expansion budget `envFieldsSize env + 1`, fuel covering the descriptor
size plus budget times the number of unguarded refs from a closed universe `U`
is never exhausted, and a run only ever adds guards. -/
theorem compile_sufficient (env : GEnv) (U : List String) (hU : U.Nodup)
    (hclosed : ∀ c fs, env.lookup c = some fs →
      ∀ n τ, (n, τ) ∈ fs → ∀ m ∈ τ.modelNames, getTypeRef m ∈ U) :
    ∀ fuel : Nat,
      (∀ st t, (∀ m ∈ t.modelNames, getTypeRef m ∈ U) →
        t.size + (envFieldsSize env + 1) * unguardedCount U st ≤ fuel →
        ∃ s st2, compile env fuel st t = some (s, st2) ∧ GuardedLe st st2)
      ∧ (∀ st fields, (∀ n τ, (n, τ) ∈ fields → ∀ m ∈ τ.modelNames, getTypeRef m ∈ U) →
        fieldsSize fields + (envFieldsSize env + 1) * unguardedCount U st ≤ fuel →
        ∃ fs st2, compileFieldsWith (compile env fuel) st fields = some (fs, st2)
          ∧ GuardedLe st st2)
      ∧ (∀ st args, (∀ τ ∈ args, ∀ m ∈ τ.modelNames, getTypeRef m ∈ U) →
        PyType.sizeList args + (envFieldsSize env + 1) * unguardedCount U st ≤ fuel →
        ∃ cs nb st2, compileUnionArgsWith (compile env fuel) st args = some (cs, nb, st2)
          ∧ GuardedLe st st2) := by
  intro fuel
  induction fuel with
  | zero =>
    refine ⟨?_, ?_, ?_⟩
    · intro st t _ hsize
      have := PyType.one_le_size t
      omega
    · intro st fields _ hsize
      cases fields with
      | nil => exact ⟨[], st, rfl, GuardedLe.refl st⟩
      | cons hd rest =>
        obtain ⟨n, τ⟩ := hd
        have := PyType.one_le_size τ
        simp only [fieldsSize, List.map_cons, PyType.sizeList] at hsize
        omega
    · intro st args _ hsize
      cases args with
      | nil => exact ⟨[], false, st, rfl, GuardedLe.refl st⟩
      | cons hd rest =>
        have := PyType.one_le_size hd
        simp only [PyType.sizeList] at hsize
        omega
  | succ fuel ih =>
    obtain ⟨ihC, ihF, ihU⟩ := ih
    have hA : ∀ st t, (∀ m ∈ t.modelNames, getTypeRef m ∈ U) →
        t.size + (envFieldsSize env + 1) * unguardedCount U st ≤ fuel + 1 →
        ∃ s st2, compile env (fuel + 1) st t = some (s, st2) ∧ GuardedLe st st2 := by
      intro st t hnames hsize
      cases t with
      | intTy => exact ⟨mkS .intNode, st, rfl, GuardedLe.refl st⟩
      | noneTy => exact ⟨mkS .noneNode, st, rfl, GuardedLe.refl st⟩
      | listTy e =>
        have hs : e.size + (envFieldsSize env + 1) * unguardedCount U st ≤ fuel := by
          simp only [PyType.size] at hsize
          omega
        obtain ⟨s, st2, hc, hle⟩ := ihC st e hnames hs
        refine ⟨mkS (.listNode s), st2, ?_, hle⟩
        simp only [compile, hc]
      | unionTy args =>
        have hs : PyType.sizeList args + (envFieldsSize env + 1) * unguardedCount U st ≤ fuel := by
          simp only [PyType.size] at hsize
          omega
        have hn : ∀ τ ∈ args, ∀ m ∈ τ.modelNames, getTypeRef m ∈ U := by
          intro τ hτ m hm
          exact hnames m (mem_modelNamesList hτ hm)
        obtain ⟨cs, nb, st2, hc, hle⟩ := ihU st args hn hs
        rcases cs with _ | ⟨c0, cs1⟩
        · refine ⟨(if nb then mkS (.nullableNode (mkS (.unionNode [])))
              else mkS (.unionNode [])), st2, ?_, hle⟩
          simp only [compile, hc]
        · rcases cs1 with _ | ⟨c1, cs2⟩
          · refine ⟨(if nb then mkS (.nullableNode c0) else c0), st2, ?_, hle⟩
            simp only [compile, hc]
          · refine ⟨(if nb then mkS (.nullableNode (mkS (.unionNode (c0 :: c1 :: cs2))))
                else mkS (.unionNode (c0 :: c1 :: cs2))), st2, ?_, hle⟩
            simp only [compile, hc]
      | modelTy c =>
        by_cases hg : getTypeRef c ∈ st.seen ∨ (st.definitions.lookup (getTypeRef c)).isSome
        · refine ⟨defRefSchema (getTypeRef c), st, ?_, GuardedLe.refl st⟩
          simp only [compile]
          rw [if_pos hg]
        · have hgf : st.guarded (getTypeRef c) = false := by
            cases hgb : st.guarded (getTypeRef c)
            · rfl
            · exact absurd ((Defs.guarded_eq_true_iff st _).mp hgb) hg
          have hrefU : getTypeRef c ∈ U := hnames c (by simp [PyType.modelNames])
          have hcount := unguardedCount_push_seen U st (getTypeRef c) hU hrefU hgf
          have hclf : ∀ n τ, (n, τ) ∈ fieldsOf env c → ∀ m ∈ τ.modelNames,
              getTypeRef m ∈ U := by
            intro n τ hf m hm
            unfold fieldsOf at hf
            cases hl : env.lookup c with
            | none => rw [hl] at hf; cases hf
            | some fs =>
              rw [hl] at hf
              simp only [Option.getD_some] at hf
              exact hclosed c fs hl n τ hf m hm
          have hfb : fieldsSize (fieldsOf env c)
              + (envFieldsSize env + 1)
                * unguardedCount U ⟨st.seen ++ [getTypeRef c], st.definitions⟩ ≤ fuel := by
            have h1 : fieldsSize (fieldsOf env c) ≤ envFieldsSize env :=
              fieldsSize_fieldsOf_le env c
            simp only [PyType.size] at hsize
            have h3 : (envFieldsSize env + 1)
                * (unguardedCount U ⟨st.seen ++ [getTypeRef c], st.definitions⟩ + 1)
                = (envFieldsSize env + 1)
                    * unguardedCount U ⟨st.seen ++ [getTypeRef c], st.definitions⟩
                  + (envFieldsSize env + 1) := by ring
            rw [← hcount] at hsize
            omega
          obtain ⟨fss, st2, hcf, hle12⟩ :=
            ihF ⟨st.seen ++ [getTypeRef c], st.definitions⟩ (fieldsOf env c) hclf hfb
          refine ⟨defRefSchema (getTypeRef c),
            ⟨st2.seen.erase (getTypeRef c),
              insertDef st2.definitions (getTypeRef c)
                (CoreSchema.mk (.modelNode c fss) (some (getTypeRef c)) none none none)⟩,
            ?_, ?_⟩
          · simp only [compile]
            rw [if_neg hg]
            simp only [hcf]
          · exact ((guardedLe_push st (getTypeRef c)).trans hle12).trans
              (guardedLe_model_close st2 (getTypeRef c) _)
    have hB : ∀ st fields,
        (∀ n τ, (n, τ) ∈ fields → ∀ m ∈ τ.modelNames, getTypeRef m ∈ U) →
        fieldsSize fields + (envFieldsSize env + 1) * unguardedCount U st ≤ fuel + 1 →
        ∃ fs st2, compileFieldsWith (compile env (fuel + 1)) st fields = some (fs, st2)
          ∧ GuardedLe st st2 := by
      intro st fields
      induction fields generalizing st with
      | nil => intro _ _; exact ⟨[], st, rfl, GuardedLe.refl st⟩
      | cons hd rest ihr =>
        intro hcl hsize
        obtain ⟨n, τ⟩ := hd
        have hτn : ∀ m ∈ τ.modelNames, getTypeRef m ∈ U :=
          fun m hm => hcl n τ (List.mem_cons_self _ _) m hm
        have hsτ : τ.size + (envFieldsSize env + 1) * unguardedCount U st ≤ fuel + 1 := by
          simp only [fieldsSize, List.map_cons, PyType.sizeList] at hsize
          omega
        obtain ⟨s, st1, hc1, hle1⟩ := hA st τ hτn hsτ
        have hrest : fieldsSize rest + (envFieldsSize env + 1) * unguardedCount U st1
            ≤ fuel + 1 := by
          have hmul : (envFieldsSize env + 1) * unguardedCount U st1
              ≤ (envFieldsSize env + 1) * unguardedCount U st :=
            Nat.mul_le_mul_left _ (unguardedCount_le_of_guardedLe U hle1)
          simp only [fieldsSize, List.map_cons, PyType.sizeList] at hsize ⊢
          omega
        obtain ⟨fs2, st2, hc2, hle2⟩ :=
          ihr st1 (fun n2 τ2 h => hcl n2 τ2 (List.mem_cons_of_mem _ h)) hrest
        refine ⟨(n, s) :: fs2, st2, ?_, hle1.trans hle2⟩
        simp only [compileFieldsWith, hc1, hc2]
    have hC : ∀ st args, (∀ τ ∈ args, ∀ m ∈ τ.modelNames, getTypeRef m ∈ U) →
        PyType.sizeList args + (envFieldsSize env + 1) * unguardedCount U st ≤ fuel + 1 →
        ∃ cs nb st2, compileUnionArgsWith (compile env (fuel + 1)) st args
          = some (cs, nb, st2) ∧ GuardedLe st st2 := by
      intro st args
      induction args generalizing st with
      | nil => intro _ _; exact ⟨[], false, st, rfl, GuardedLe.refl st⟩
      | cons hd rest ihr =>
        intro hcl hsize
        by_cases hn : hd.isNoneType = true
        · have hrest : PyType.sizeList rest
              + (envFieldsSize env + 1) * unguardedCount U st ≤ fuel + 1 := by
            have := PyType.one_le_size hd
            simp only [PyType.sizeList] at hsize
            omega
          obtain ⟨cs, nb, st2, hc, hle⟩ :=
            ihr st (fun τ h => hcl τ (List.mem_cons_of_mem _ h)) hrest
          refine ⟨cs, true, st2, ?_, hle⟩
          simp only [compileUnionArgsWith, hn, if_true, hc]
        · have hτn : ∀ m ∈ hd.modelNames, getTypeRef m ∈ U :=
            fun m hm => hcl hd (List.mem_cons_self _ _) m hm
          have hshd : hd.size + (envFieldsSize env + 1) * unguardedCount U st ≤ fuel + 1 := by
            simp only [PyType.sizeList] at hsize
            omega
          obtain ⟨s, st1, hc1, hle1⟩ := hA st hd hτn hshd
          have hrest : PyType.sizeList rest
              + (envFieldsSize env + 1) * unguardedCount U st1 ≤ fuel + 1 := by
            have hmul : (envFieldsSize env + 1) * unguardedCount U st1
                ≤ (envFieldsSize env + 1) * unguardedCount U st :=
              Nat.mul_le_mul_left _ (unguardedCount_le_of_guardedLe U hle1)
            simp only [PyType.sizeList] at hsize
            omega
          obtain ⟨cs, nb, st2, hc2, hle2⟩ :=
            ihr st1 (fun τ h => hcl τ (List.mem_cons_of_mem _ h)) hrest
          refine ⟨s :: cs, nb, st2, ?_, hle1.trans hle2⟩
          simp only [compileUnionArgsWith]
          rw [if_neg hn]
          simp only [hc1, hc2]
    exact ⟨hA, hB, hC⟩

/-- A computable fuel bound for a top-level compilation. -/
def compileBound (env : GEnv) (st : Defs) (t : PyType) : Nat :=
  t.size + (envFieldsSize env + 1) * unguardedCount (uRefs env t) st

/-- A two-record cycle: `A { b: B }`, `B { a: A }`. -/
def envCycle : GEnv := [("A", [("b", .modelTy "B")]), ("B", [("a", .modelTy "A")])]

/-- C4: compilation of self-referential record types terminates. First
conjunct: for every environment, state and type descriptor, the recursion
completes within the computable fuel bound `compileBound` (the Definition
Table's in-progress marking makes the unguarded-ref count strictly decrease at
each model expansion, so the unbounded Python recursion is well-founded).
Second and third conjuncts: a recursive visit of a model identity that is
in-progress (respectively already completed) returns a lightweight
`definition-ref` node immediately and leaves the state untouched — no
re-entrant expansion. Fourth conjunct: the mutually recursive environment
`A { b: B }, B { a: A }` compiles to a definitions table in which each record
is expanded exactly once and the cycle is represented by `definition-ref`
back-references through the Definition Table. -/
theorem compile_terminates_with_cycle_guard :
    (∀ (env : GEnv) (st : Defs) (t : PyType),
      (compile env (compileBound env st t) st t).isSome)
    ∧ (∀ (env : GEnv) (fuel : Nat) (st : Defs) (c : String),
        getTypeRef c ∈ st.seen →
        compile env (fuel + 1) st (.modelTy c) = some (defRefSchema (getTypeRef c), st))
    ∧ (∀ (env : GEnv) (fuel : Nat) (st : Defs) (c : String),
        (st.definitions.lookup (getTypeRef c)).isSome →
        compile env (fuel + 1) st (.modelTy c) = some (defRefSchema (getTypeRef c), st))
    ∧ compile envCycle 20 ⟨[], []⟩ (.modelTy "A")
        = some (defRefSchema "model:A",
            ⟨[], [("model:B", CoreSchema.mk (.modelNode "B" [("a", defRefSchema "model:A")])
                      (some "model:B") none none none),
                  ("model:A", CoreSchema.mk (.modelNode "A" [("b", defRefSchema "model:B")])
                      (some "model:A") none none none)]⟩) := by
  refine ⟨?_, ?_, ?_, rfl⟩
  · intro env st t
    obtain ⟨hA, _, _⟩ := compile_sufficient env (uRefs env t) (uRefs_nodup env t)
      (fun c fs hc n τ hf m hm => mem_uRefs_of_env hc hf hm) (compileBound env st t)
    obtain ⟨s, st2, hc, _⟩ := hA st t (fun m hm => mem_uRefs_of_root hm)
      (by unfold compileBound; exact Nat.le_refl _)
    rw [hc]
    rfl
  · intro env fuel st c h
    simp only [compile]
    rw [if_pos (Or.inl h)]
  · intro env fuel st c h
    simp only [compile]
    rw [if_pos (Or.inr h)]

/-- Witness for `compile_terminates_with_cycle_guard` at concrete states: a
visit of model `A` while `model:A` is in-progress, and of model `B` when
`model:B` is already in the definition table, each yield a reference node
without touching the state. -/
theorem compile_terminates_with_cycle_guard_witness :
    compile [] 1 ⟨["model:A"], []⟩ (.modelTy "A")
      = some (defRefSchema "model:A", ⟨["model:A"], []⟩)
    ∧ compile [] 1 ⟨[], [("model:B", mkS .intNode)]⟩ (.modelTy "B")
      = some (defRefSchema "model:B", ⟨[], [("model:B", mkS .intNode)]⟩) :=
  ⟨compile_terminates_with_cycle_guard.2.1 [] 0 ⟨["model:A"], []⟩ "A"
      (List.mem_singleton.mpr rfl),
    compile_terminates_with_cycle_guard.2.2.1 [] 0 ⟨[], [("model:B", mkS .intNode)]⟩ "B"
      (by rfl)⟩

/-! ### Union classification (C9) -/

/-- The nullability flag produced by the member loop of `_union_schema` is set
exactly when some declared member is `None`/`NoneType`. -/
theorem compileUnionArgs_nullable_flag (step : Defs → PyType → Option (CoreSchema × Defs)) :
    ∀ (args : List PyType) (st : Defs) cs nb st2,
      compileUnionArgsWith step st args = some (cs, nb, st2) →
      nb = args.any PyType.isNoneType := by
  intro args
  induction args with
  | nil =>
    intro st cs nb st2 h
    simp only [compileUnionArgsWith, Option.some.injEq, Prod.mk.injEq] at h
    obtain ⟨-, h2, -⟩ := h
    simp [← h2]
  | cons a rest ih =>
    intro st cs nb st2 h
    by_cases hn : a.isNoneType = true
    · simp only [compileUnionArgsWith, hn, if_true] at h
      cases hrec : compileUnionArgsWith step st rest with
      | none => simp only [hrec] at h; cases h
      | some p =>
        obtain ⟨cs1, nb1, st1⟩ := p
        simp only [hrec, Option.some.injEq, Prod.mk.injEq] at h
        obtain ⟨-, h2, -⟩ := h
        simp [List.any_cons, hn, ← h2]
    · simp only [compileUnionArgsWith, if_neg hn] at h
      cases hstep : step st a with
      | none => simp only [hstep] at h; cases h
      | some p =>
        obtain ⟨s, st1⟩ := p
        simp only [hstep] at h
        cases hrec : compileUnionArgsWith step st1 rest with
        | none => simp only [hrec] at h; cases h
        | some q =>
          obtain ⟨cs1, nb1, st2b⟩ := q
          simp only [hrec, Option.some.injEq, Prod.mk.injEq] at h
          obtain ⟨-, h2, h3⟩ := h
          have hrest := ih st1 cs1 nb1 st2b hrec
          have hnf : a.isNoneType = false := by simpa using hn
          simp [List.any_cons, hnf, ← h2, hrest]

/-- The member loop keeps exactly the non-`None` members, in declaration
order (witnessed here by the count). -/
theorem compileUnionArgs_choices_length (step : Defs → PyType → Option (CoreSchema × Defs)) :
    ∀ (args : List PyType) (st : Defs) cs nb st2,
      compileUnionArgsWith step st args = some (cs, nb, st2) →
      cs.length = (args.filter (fun a => !a.isNoneType)).length := by
  intro args
  induction args with
  | nil =>
    intro st cs nb st2 h
    simp only [compileUnionArgsWith, Option.some.injEq, Prod.mk.injEq] at h
    obtain ⟨h1, -, -⟩ := h
    simp [← h1]
  | cons a rest ih =>
    intro st cs nb st2 h
    by_cases hn : a.isNoneType = true
    · simp only [compileUnionArgsWith, hn, if_true] at h
      cases hrec : compileUnionArgsWith step st rest with
      | none => simp only [hrec] at h; cases h
      | some p =>
        obtain ⟨cs1, nb1, st1⟩ := p
        simp only [hrec, Option.some.injEq, Prod.mk.injEq] at h
        obtain ⟨h1, -, -⟩ := h
        simp [List.filter_cons, hn, ← h1, ih st cs1 nb1 st1 hrec]
    · simp only [compileUnionArgsWith, if_neg hn] at h
      cases hstep : step st a with
      | none => simp only [hstep] at h; cases h
      | some p =>
        obtain ⟨s, st1⟩ := p
        simp only [hstep] at h
        cases hrec : compileUnionArgsWith step st1 rest with
        | none => simp only [hrec] at h; cases h
        | some q =>
          obtain ⟨cs1, nb1, st2b⟩ := q
          simp only [hrec, Option.some.injEq, Prod.mk.injEq] at h
          obtain ⟨h1, -, -⟩ := h
          have hnf : a.isNoneType = false := by simpa using hn
          simp [List.filter_cons, hnf, ← h1, ih st1 cs1 nb1 st2b hrec]

/-- The environment for the concrete scenario
`Node { value: int, next: Optional[Node] }`. -/
def envNode : GEnv :=
  [("Node", [("value", .intTy), ("next", .unionTy [.modelTy "Node", .noneTy])])]

/-- C9: for every union type, `None` members are stripped and recorded as
nullability (the flag is set iff some declared member is `None`, and exactly
the non-`None` members are kept, in declaration order); exactly one remaining
member collapses to that member's schema with no union node; two or more
yield a union node over the members; the nullable wrapper is applied outermost
after all members are classified. Last conjunct: the record
`Node { value: int, next: Optional[Node] }` compiles to one ref for `Node`
whose `next` schema is a nullable wrapper around a `definition-ref` node
pointing back to that same ref. -/
theorem union_schema_classification :
    (∀ (env : GEnv) (fuel : Nat) (st : Defs) (args : List PyType) cs nb st2,
      compileUnionArgsWith (compile env fuel) st args = some (cs, nb, st2) →
      nb = args.any PyType.isNoneType
        ∧ cs.length = (args.filter (fun a => !a.isNoneType)).length)
    ∧ (∀ (env : GEnv) (fuel : Nat) (st : Defs) (args : List PyType) (c : CoreSchema) nb st2,
      compileUnionArgsWith (compile env fuel) st args = some ([c], nb, st2) →
      compile env (fuel + 1) st (.unionTy args)
        = some ((if nb then mkS (.nullableNode c) else c), st2))
    ∧ (∀ (env : GEnv) (fuel : Nat) (st : Defs) (args : List PyType) c0 c1 cs nb st2,
      compileUnionArgsWith (compile env fuel) st args = some (c0 :: c1 :: cs, nb, st2) →
      compile env (fuel + 1) st (.unionTy args)
        = some ((if nb then mkS (.nullableNode (mkS (.unionNode (c0 :: c1 :: cs))))
            else mkS (.unionNode (c0 :: c1 :: cs))), st2))
    ∧ compile envNode 30 ⟨[], []⟩ (.modelTy "Node")
        = some (defRefSchema "model:Node",
            ⟨[], [("model:Node",
              CoreSchema.mk (.modelNode "Node"
                [("value", mkS .intNode),
                  ("next", mkS (.nullableNode (defRefSchema "model:Node")))])
                (some "model:Node") none none none)]⟩) := by
  refine ⟨?_, ?_, ?_, rfl⟩
  · intro env fuel st args cs nb st2 h
    exact ⟨compileUnionArgs_nullable_flag _ args st cs nb st2 h,
      compileUnionArgs_choices_length _ args st cs nb st2 h⟩
  · intro env fuel st args c nb st2 h
    simp only [compile, h]
  · intro env fuel st args c0 c1 cs nb st2 h
    simp only [compile, h]

/-- Witness for `union_schema_classification` at concrete unions:
`Union[int, None]` collapses to a nullable `int` with no union node, while
`Union[int, list[int]]` yields a union node over both members. -/
theorem union_schema_classification_witness :
    (true = ([PyType.intTy, PyType.noneTy].any PyType.isNoneType)
      ∧ ([mkS SchemaNode.intNode] : List CoreSchema).length
          = (([PyType.intTy, PyType.noneTy]).filter (fun a => !a.isNoneType)).length)
    ∧ compile [] 6 ⟨[], []⟩ (.unionTy [.intTy, .noneTy])
        = some (mkS (.nullableNode (mkS .intNode)), ⟨[], []⟩)
    ∧ compile [] 6 ⟨[], []⟩ (.unionTy [.intTy, .listTy .intTy])
        = some (mkS (.unionNode [mkS .intNode, mkS (.listNode (mkS .intNode))]), ⟨[], []⟩) :=
  ⟨union_schema_classification.1 [] 5 ⟨[], []⟩ [.intTy, .noneTy]
      [mkS .intNode] true ⟨[], []⟩ rfl,
    union_schema_classification.2.1 [] 5 ⟨[], []⟩ [.intTy, .noneTy]
      (mkS .intNode) true ⟨[], []⟩ rfl,
    union_schema_classification.2.2.1 [] 5 ⟨[], []⟩ [.intTy, .listTy .intTy]
      (mkS .intNode) (mkS (.listNode (mkS .intNode))) [] false ⟨[], []⟩ rfl⟩

/-! ## Validators (`apply_validators`, `apply_each_item_validators`) -/

/-- A `@validator`/`@field_validator` decorator as consumed by
`apply_validators`: attachment mode, the `inspect_validator` info-argument
result, the callable id, and the V1 flags `each_item` / `always`. -/
structure ValidatorDec where
  mode : VMode
  infoArg : Bool
  funcId : Nat
  eachItem : Bool := false
  always : Bool := false
deriving Repr

/-- `_VALIDATOR_F_MATCH[(mode, val_type)](func, schema, field_name)`: builds
the validator function schema; `plain` drops the inner schema, and only
`with-info` entries attach the field name. -/
def validatorFMatch (mode : VMode) (infoArg : Bool) (funcId : Nat)
    (schema : CoreSchema) (fieldName : Option String) : CoreSchema :=
  match mode, infoArg with
  | .before, false => mkS (.functionNode .before .noInfo funcId (some schema) none)
  | .after, false => mkS (.functionNode .after .noInfo funcId (some schema) none)
  | .plain, false => mkS (.functionNode .plain .noInfo funcId none none)
  | .wrap, false => mkS (.functionNode .wrap .noInfo funcId (some schema) none)
  | .before, true => mkS (.functionNode .before .withInfo funcId (some schema) fieldName)
  | .after, true => mkS (.functionNode .after .withInfo funcId (some schema) fieldName)
  | .plain, true => mkS (.functionNode .plain .withInfo funcId none fieldName)
  | .wrap, true => mkS (.functionNode .wrap .withInfo funcId (some schema) fieldName)

/-- `apply_validators`: every validator in the iterable is folded over the
schema in declaration order. -/
def applyValidators (schema : CoreSchema) (validators : List ValidatorDec)
    (fieldName : Option String) : CoreSchema :=
  validators.foldl (fun s v => validatorFMatch v.mode v.infoArg v.funcId s fieldName) schema

/-- Python `TypeError` carrying the offending `schema['type']` (the message of
the raise in `apply_each_item_validators`; the spec's configuration error
naming the incompatible schema kind). -/
inductive PyErr where
  | typeErr : String → PyErr
deriving DecidableEq, Repr

/-- The pushdown body of `apply_each_item_validators` (the code after the
empty-list early return). Recursive calls pass the same non-empty validator
list, so the early return never fires on them and the recursion is modelled
directly on this worker. The in-range tuple index access is modelled with a
default (`core_schema.any_schema()`), as is the `schema.get('items_schema',
any_schema())` / `values_schema` default for the list-like and dict cases.
The dispatch on `is_list_like_schema_with_items_schema` is fixed — modelled
from the spec, since that helper lives in `_core_utils`, outside `src/` — to
the list-like kinds `list`, `set`, `frozenset`. -/
def eachItemPushdown : CoreSchema → List ValidatorDec → Option String → Except PyErr CoreSchema
  | .mk (.nullableNode inner) r s t p, vs, fieldName =>
    match eachItemPushdown inner vs fieldName with
    | .error e => .error e
    | .ok inner2 => .ok (.mk (.nullableNode inner2) r s t p)
  | .mk (.tupleNode items (some i)) r s t p, vs, fieldName =>
    .ok (.mk (.tupleNode
        (items.set i (applyValidators (items.getD i (mkS .anyNode)) vs fieldName))
        (some i)) r s t p)
  | .mk (.tupleNode items none) r s t p, _, _ =>
    .ok (.mk (.tupleNode items none) r s t p)
  | .mk (.listNode items) r s t p, vs, fieldName =>
    .ok (.mk (.listNode (applyValidators items vs fieldName)) r s t p)
  | .mk (.setNode items) r s t p, vs, fieldName =>
    .ok (.mk (.setNode (applyValidators items vs fieldName)) r s t p)
  | .mk (.frozensetNode items) r s t p, vs, fieldName =>
    .ok (.mk (.frozensetNode (applyValidators items vs fieldName)) r s t p)
  | .mk (.dictNode keys values) r s t p, vs, fieldName =>
    .ok (.mk (.dictNode keys (applyValidators values vs fieldName)) r s t p)
  | schema, _, _ => .error (.typeErr schema.typeName)

/-- `apply_each_item_validators`: return the schema unchanged for an empty
validator list, otherwise push the validators down into the innermost
element/values schema. -/
def applyEachItemValidators (schema : CoreSchema) (vs : List ValidatorDec)
    (fieldName : Option String) : Except PyErr CoreSchema :=
  if vs.isEmpty then .ok schema
  else eachItemPushdown schema vs fieldName

def c3EachItemValidator : ValidatorDec := ⟨.after, false, 11, true, false⟩

/-- C3 counterexample: with a non-empty each-item validator list, a `tuple`
schema without a variadic item index falls through the dispatch and is
returned unchanged — no validator is applied and no configuration error is
raised, although the claim requires an error for every schema kind other than
list-like/dict-like/tuple-variadic (possibly under a nullable wrapper). -/
theorem each_item_on_nonvariadic_tuple_not_rejected :
    applyEachItemValidators (mkS (.tupleNode [mkS .intNode] none)) [c3EachItemValidator]
        (some "x")
      = .ok (mkS (.tupleNode [mkS .intNode] none))
    ∧ (applyEachItemValidators (mkS (.tupleNode [mkS .intNode] none)) [c3EachItemValidator]
        (some "x")).isOk = true :=
  ⟨rfl, rfl⟩

/-- C3 (amended): an empty each-item validator list returns the schema
unchanged; under a nullable wrapper the validators recurse into the inner
schema; for list-like (`list`/`set`/`frozenset`) schemas they wrap the
`items_schema`, for `dict` the `values_schema`, and for a tuple with a
variadic item exactly that item; a tuple without a variadic item is returned
unchanged (no wrapping, no error); every other schema kind raises a
`TypeError` naming the incompatible schema kind. -/
theorem apply_each_item_validators_pushdown :
    (∀ (schema : CoreSchema) (fn : Option String),
      applyEachItemValidators schema [] fn = .ok schema)
    ∧ (∀ inner r s t p vs fn, vs ≠ [] →
      applyEachItemValidators (CoreSchema.mk (.nullableNode inner) r s t p) vs fn
        = match applyEachItemValidators inner vs fn with
          | .error e => .error e
          | .ok inner2 => .ok (CoreSchema.mk (.nullableNode inner2) r s t p))
    ∧ (∀ items r s t p vs fn, vs ≠ [] →
      applyEachItemValidators (CoreSchema.mk (.listNode items) r s t p) vs fn
        = .ok (CoreSchema.mk (.listNode (applyValidators items vs fn)) r s t p))
    ∧ (∀ items r s t p vs fn, vs ≠ [] →
      applyEachItemValidators (CoreSchema.mk (.setNode items) r s t p) vs fn
        = .ok (CoreSchema.mk (.setNode (applyValidators items vs fn)) r s t p))
    ∧ (∀ items r s t p vs fn, vs ≠ [] →
      applyEachItemValidators (CoreSchema.mk (.frozensetNode items) r s t p) vs fn
        = .ok (CoreSchema.mk (.frozensetNode (applyValidators items vs fn)) r s t p))
    ∧ (∀ keys values r s t p vs fn, vs ≠ [] →
      applyEachItemValidators (CoreSchema.mk (.dictNode keys values) r s t p) vs fn
        = .ok (CoreSchema.mk (.dictNode keys (applyValidators values vs fn)) r s t p))
    ∧ (∀ items i r s t p vs fn, vs ≠ [] →
      applyEachItemValidators (CoreSchema.mk (.tupleNode items (some i)) r s t p) vs fn
        = .ok (CoreSchema.mk (.tupleNode
            (items.set i (applyValidators (items.getD i (mkS .anyNode)) vs fn))
            (some i)) r s t p))
    ∧ (∀ (schema : CoreSchema) vs fn, vs ≠ [] →
      schema.typeName ∉ (["nullable", "tuple", "list", "set", "frozenset", "dict"] : List String) →
      applyEachItemValidators schema vs fn = .error (.typeErr schema.typeName)) := by
  refine ⟨?_, ?_, ?_, ?_, ?_, ?_, ?_, ?_⟩
  · intro schema fn
    rfl
  · intro inner r s t p vs fn h
    cases vs with
    | nil => exact absurd rfl h
    | cons v tl => simp [applyEachItemValidators, eachItemPushdown]
  · intro items r s t p vs fn h
    cases vs with
    | nil => exact absurd rfl h
    | cons v tl => simp [applyEachItemValidators, eachItemPushdown]
  · intro items r s t p vs fn h
    cases vs with
    | nil => exact absurd rfl h
    | cons v tl => simp [applyEachItemValidators, eachItemPushdown]
  · intro items r s t p vs fn h
    cases vs with
    | nil => exact absurd rfl h
    | cons v tl => simp [applyEachItemValidators, eachItemPushdown]
  · intro keys values r s t p vs fn h
    cases vs with
    | nil => exact absurd rfl h
    | cons v tl => simp [applyEachItemValidators, eachItemPushdown]
  · intro items i r s t p vs fn h
    cases vs with
    | nil => exact absurd rfl h
    | cons v tl => simp [applyEachItemValidators, eachItemPushdown]
  · intro schema vs fn h hmem
    obtain ⟨node, r, s, t, p⟩ := schema
    cases vs with
    | nil => exact absurd rfl h
    | cons v tl =>
      cases node <;>
        first
          | (simp [applyEachItemValidators, eachItemPushdown, CoreSchema.typeName,
              CoreSchema.node, SchemaNode.typeName]
             done)
          | (exact absurd (by simp [CoreSchema.typeName, CoreSchema.node,
              SchemaNode.typeName]) hmem)

/-- Witness for `apply_each_item_validators_pushdown`: an each-item validator
on a list-typed field wraps the element schema, and on an `int`-typed field
raises the configuration error naming `int`. -/
theorem apply_each_item_validators_pushdown_witness :
    applyEachItemValidators (CoreSchema.mk (.listNode (mkS .intNode)) none none none none)
        [c3EachItemValidator] (some "x")
      = .ok (CoreSchema.mk
          (.listNode (mkS (.functionNode .after .noInfo 11 (some (mkS .intNode)) none)))
          none none none none)
    ∧ applyEachItemValidators (CoreSchema.mk .intNode none none none none)
        [c3EachItemValidator] (some "x")
      = .error (.typeErr "int") :=
  ⟨apply_each_item_validators_pushdown.2.2.1 (mkS .intNode) none none none none
      [c3EachItemValidator] (some "x") (List.cons_ne_nil _ _),
    apply_each_item_validators_pushdown.2.2.2.2.2.2.2 (CoreSchema.mk .intNode none none none none)
      [c3EachItemValidator] (some "x") (List.cons_ne_nil _ _) (by decide)⟩

/-! ## Serializers (`_apply_field_serializers`, `_apply_model_serializers`) -/

/-- A `@field_serializer` decorator: mode (`wrap` or `plain`), callable id,
`when_used`, and the two `inspect_field_serializer` results. Return-type
resolution is elided: the modelled serializers carry no return annotation
(`return_type is PydanticUndefined`, so `return_schema=None`). -/
structure FieldSerDec where
  wrapMode : Bool
  funcId : Nat
  whenUsed : String
  isFieldSer : Bool
  infoArg : Bool
deriving DecidableEq, Repr

/-- The `core_schema.*_serializer_function_ser_schema` call selected by the
serializer's mode. -/
def fieldSerSchema (d : FieldSerDec) : SerSchema :=
  if d.wrapMode then .wrapFunctionSer d.funcId d.isFieldSer d.infoArg d.whenUsed
  else .plainFunctionSer d.funcId d.isFieldSer d.infoArg d.whenUsed

/-- `_apply_field_serializers`: no-op for an empty list; a `definitions`
schema recurses into its inner schema; otherwise a `ref`-bearing schema is
moved into the definition table and replaced by a reference node, and the
single `serialization` slot of the resulting schema is set from the **last**
serializer in declaration order. -/
def applyFieldSerializers (defs : List (String × CoreSchema)) (schema : CoreSchema)
    (serializers : List FieldSerDec) : CoreSchema × List (String × CoreSchema) :=
  match serializers with
  | [] => (schema, defs)
  | s0 :: rest =>
    match schema with
    | .mk (.definitionsNode inner innerDefs) r s t p =>
      let (inner2, defs2) := applyFieldSerializers defs inner (s0 :: rest)
      (.mk (.definitionsNode inner2 innerDefs) r s t p, defs2)
    | sc =>
      let (sc2, defs2) :=
        match sc.ref with
        | some ref => (defRefSchema ref, insertDef defs ref sc)
        | none => (sc, defs)
      (sc2.setSerialization
        (some (fieldSerSchema ((s0 :: rest).getLast (List.cons_ne_nil s0 rest)))), defs2)

/-- A `@model_serializer` decorator (no `is_field_serializer` inspection). -/
structure ModelSerDec where
  wrapMode : Bool
  funcId : Nat
  whenUsed : String
  infoArg : Bool
deriving DecidableEq, Repr

def modelSerSchema (d : ModelSerDec) : SerSchema :=
  if d.wrapMode then .wrapFunctionSer d.funcId false d.infoArg d.whenUsed
  else .plainFunctionSer d.funcId false d.infoArg d.whenUsed

/-- `_apply_model_serializers`: pop the `ref`, set the single serialization
slot from the **last** serializer (if any), and restore the ref (Python
truthiness on the popped ref is modelled as presence; the empty-string ref
edge case is not modelled). -/
def applyModelSerializers (schema : CoreSchema) (serializers : List ModelSerDec) :
    CoreSchema :=
  let ref := schema.ref
  let schema2 :=
    match serializers with
    | [] => schema.setRef none
    | s0 :: rest =>
      (schema.setRef none).setSerialization
        (some (modelSerSchema ((s0 :: rest).getLast (List.cons_ne_nil s0 rest))))
  if ref.isSome then schema2.setRef ref else schema2

/-- The number of validator-function wrappers along the inner spine of a
schema. -/
def validatorDepth : CoreSchema → Nat
  | .mk (.functionNode _ _ _ (some inner) _) _ _ _ _ => validatorDepth inner + 1
  | .mk (.functionNode _ _ _ none _) _ _ _ _ => 1
  | _ => 0

theorem setSerialization_serialization (x : CoreSchema) (v : Option SerSchema) :
    (x.setSerialization v).serialization = v := by
  obtain ⟨n, r, s, t, p⟩ := x
  rfl

theorem validatorDepth_validatorFMatch (v : ValidatorDec) (s : CoreSchema)
    (fn : Option String) (h : v.mode ≠ .plain) :
    validatorDepth (validatorFMatch v.mode v.infoArg v.funcId s fn)
      = validatorDepth s + 1 := by
  obtain ⟨mode, infoArg, funcId, e, a⟩ := v
  cases mode <;> cases infoArg <;>
    first
      | (exact absurd rfl h)
      | (simp [validatorFMatch, validatorDepth, mkS])

/-- C7: the serialization slot is single and the **last** applicable
serializer in declaration order wins, for field-level serializers (first
conjunct, any non-`definitions` schema) and model-level serializers (second
conjunct, which also leaves the `ref` unchanged); validator transforms are
chainable: the application is a left fold that applies every validator
(third conjunct), and for wrapping (non-`plain`) validators the number of
validator wrappers grows by exactly the length of the list — none dropped
(fourth conjunct). -/
theorem serializer_slot_last_wins_validators_all_applied :
    (∀ (defs : List (String × CoreSchema)) (schema : CoreSchema)
        (sers : List FieldSerDec) (slast : FieldSerDec),
      schema.typeName ≠ "definitions" →
      sers.getLast? = some slast →
      (applyFieldSerializers defs schema sers).1.serialization
        = some (fieldSerSchema slast))
    ∧ (∀ (schema : CoreSchema) (sers : List ModelSerDec) (slast : ModelSerDec),
      sers.getLast? = some slast →
      (applyModelSerializers schema sers).serialization = some (modelSerSchema slast)
        ∧ (applyModelSerializers schema sers).ref = schema.ref)
    ∧ (∀ (schema : CoreSchema) (v : ValidatorDec) (vs : List ValidatorDec)
        (fn : Option String),
      applyValidators schema (v :: vs) fn
        = applyValidators (validatorFMatch v.mode v.infoArg v.funcId schema fn) vs fn)
    ∧ (∀ (schema : CoreSchema) (vs : List ValidatorDec) (fn : Option String),
      (∀ v ∈ vs, v.mode ≠ .plain) →
      validatorDepth (applyValidators schema vs fn)
        = validatorDepth schema + vs.length) := by
  refine ⟨?_, ?_, ?_, ?_⟩
  · intro defs schema sers slast hdefs hlast
    cases sers with
    | nil => cases hlast
    | cons s0 rest =>
      have hlastval : (s0 :: rest).getLast (List.cons_ne_nil s0 rest) = slast := by
        rw [List.getLast?_eq_getLast (s0 :: rest) (List.cons_ne_nil s0 rest)] at hlast
        exact Option.some.inj hlast
      obtain ⟨node, r, s, t, p⟩ := schema
      cases node <;>
        first
          | (exact absurd rfl hdefs)
          | (cases r <;>
              simp [applyFieldSerializers, hlastval, setSerialization_serialization,
                CoreSchema.ref])
  · intro schema sers slast hlast
    cases sers with
    | nil => cases hlast
    | cons s0 rest =>
      have hlastval : (s0 :: rest).getLast (List.cons_ne_nil s0 rest) = slast := by
        rw [List.getLast?_eq_getLast (s0 :: rest) (List.cons_ne_nil s0 rest)] at hlast
        exact Option.some.inj hlast
      obtain ⟨node, r, s, t, p⟩ := schema
      cases r <;>
        exact ⟨by
            simp [applyModelSerializers, hlastval, CoreSchema.setRef,
              CoreSchema.setSerialization, CoreSchema.serialization, CoreSchema.ref],
          by
            simp [applyModelSerializers, hlastval, CoreSchema.setRef,
              CoreSchema.setSerialization, CoreSchema.serialization, CoreSchema.ref]⟩
  · intro schema v vs fn
    rfl
  · intro schema vs fn hplain
    induction vs generalizing schema with
    | nil => simp [applyValidators]
    | cons v tl ih =>
      have h1 : validatorDepth (validatorFMatch v.mode v.infoArg v.funcId schema fn)
          = validatorDepth schema + 1 :=
        validatorDepth_validatorFMatch v schema fn (hplain v (List.mem_cons_self _ _))
      have h2 := ih (validatorFMatch v.mode v.infoArg v.funcId schema fn)
        (fun w hw => hplain w (List.mem_cons_of_mem _ hw))
      simp only [applyValidators, List.foldl_cons, List.length_cons] at h2 ⊢
      omega

def c7SerA : FieldSerDec := ⟨false, 21, "always", true, false⟩

def c7SerB : FieldSerDec := ⟨true, 22, "json", false, true⟩

def c7ModelSer : ModelSerDec := ⟨false, 23, "always", false⟩

def c7Val : ValidatorDec := ⟨.before, false, 31, false, false⟩

/-- Witness for `serializer_slot_last_wins_validators_all_applied` at
concrete serializer and validator lists. -/
theorem serializer_slot_last_wins_validators_all_applied_witness :
    (applyFieldSerializers [] (mkS .intNode) [c7SerA, c7SerB]).1.serialization
      = some (fieldSerSchema c7SerB)
    ∧ (applyModelSerializers (CoreSchema.mk (.modelNode "M" []) (some "model:M") none none none)
        [c7ModelSer]).serialization = some (modelSerSchema c7ModelSer)
    ∧ validatorDepth (applyValidators (mkS .intNode) [c7Val, c7Val] (some "f"))
      = validatorDepth (mkS .intNode) + 2 :=
  ⟨serializer_slot_last_wins_validators_all_applied.1 [] (mkS .intNode)
      [c7SerA, c7SerB] c7SerB (by decide) rfl,
    (serializer_slot_last_wins_validators_all_applied.2.1
      (CoreSchema.mk (.modelNode "M" []) (some "model:M") none none none)
      [c7ModelSer] c7ModelSer rfl).1,
    serializer_slot_last_wins_validators_all_applied.2.2.2 (mkS .intNode)
      [c7Val, c7Val] (some "f") (by decide)⟩

/-! ## Metadata application pipeline

`Ann` models the metadata items of a decorated (`Annotated`) type or of a
`FieldInfo.metadata` list: validator annotation classes (which carry
`__get_pydantic_core_schema__`), known-constraint metadata (consumed by
`_known_annotated_metadata.apply_known_metadata`), nested `FieldInfo` items,
and unrecognized metadata. `apply_known_metadata` and
`_discriminated_union.apply_discriminator` live outside `src/`, so both are
parameters (`akm`, `applyDisc`) of the translated functions. -/

mutual
inductive Ann where
  | validatorWrapAnn : VMode → Bool → Nat → Ann
  | knownAnn : Nat → Ann
  | fieldInfoAnn : FieldInfoA → Ann
  | opaqueAnn : Nat → Ann

inductive FieldInfoA where
  | mk : List Ann → Option String → Option PyVal → Option (Nat × Bool) → Bool → FieldInfoA
end

/-- The FieldInfo metadata list. -/
def FieldInfoA.metadata : FieldInfoA → List Ann
  | .mk m _ _ _ _ => m

/-- The FieldInfo discriminator. -/
def FieldInfoA.discriminator : FieldInfoA → Option String
  | .mk _ d _ _ _ => d

/-- `field_info.default`, with `none` standing for `PydanticUndefined`. -/
def FieldInfoA.default : FieldInfoA → Option PyVal
  | .mk _ _ d _ _ => d

/-- `field_info.default_factory` (callable id paired with the
`takes_validated_data_argument` inspection result). -/
def FieldInfoA.defaultFactory : FieldInfoA → Option (Nat × Bool)
  | .mk _ _ _ f _ => f

/-- `field_info.validate_default`. -/
def FieldInfoA.validateDefault : FieldInfoA → Bool
  | .mk _ _ _ _ v => v

def Ann.isFieldInfoAnn : Ann → Bool
  | .fieldInfoAnn _ => true
  | _ => false

/-- `repr(metadata)` as used to derive specialized refs. -/
def reprAnn : Ann → String
  | .validatorWrapAnn _ _ fid => "Validator(" ++ toString fid ++ ")"
  | .knownAnn cid => "Known(" ++ toString cid ++ ")"
  | .fieldInfoAnn _ => "FieldInfo(...)"
  | .opaqueAnn oid => "Opaque(" ++ toString oid ++ ")"

/-- Errors of `_discriminated_union.apply_discriminator`:
`MissingDefinitionForUnionRef` (the only class caught by
`_apply_discriminator_to_union`) and anything else (user configuration /
type errors), which must propagate unmodified. -/
inductive DiscErr where
  | missingDefinitionForUnionRef : DiscErr
  | userErr : String → DiscErr
deriving DecidableEq, Repr

/-- `_discriminated_union.set_discriminator_in_metadata` — Modelled from the
spec: records the pending discriminator requirement in the union schema's
metadata (the module is not under `src/`). -/
def setDiscriminatorInMetadata (schema : CoreSchema) (disc : String) : CoreSchema :=
  schema.setPendingDisc (some disc)

/-- `GenerateSchema._apply_discriminator_to_union`, parametrized by
`_discriminated_union.apply_discriminator`: `None` discriminator is a no-op;
immediate application is attempted first; on `MissingDefinitionForUnionRef`
the requirement is recorded as pending metadata and the schema is returned;
any other error propagates. -/
def applyDiscriminatorToUnion
    (applyDisc : CoreSchema → String → Except DiscErr CoreSchema)
    (schema : CoreSchema) (discriminator : Option String) : Except DiscErr CoreSchema :=
  match discriminator with
  | none => .ok schema
  | some d =>
    match applyDisc schema d with
    | .ok s => .ok s
    | .error .missingDefinitionForUnionRef => .ok (setDiscriminatorInMetadata schema d)
    | .error e => .error e

/-- The non-recursive tail of `_apply_single_annotation` (lines 2099-2120):
remember the original schema; a `ref`-bearing schema is copied and re-keyed
under the derived ref `ref + '_' + repr(metadata)` unless the derived ref is
already in the definition table, in which case the cached copy is returned; a
`definition-ref` schema whose target is in the table copies and re-keys the
target the same way; then `apply_known_metadata` is consulted and its result
returned, falling back to the original schema when the metadata is not a
known constraint. -/
def applySingleAnnCore (akm : Ann → CoreSchema → Option CoreSchema)
    (defs : List (String × CoreSchema)) (schema : CoreSchema) (metadata : Ann) :
    CoreSchema :=
  let original := schema
  match schema.ref with
  | some ref =>
    let newRef := ref ++ "_" ++ reprAnn metadata
    match defs.lookup newRef with
    | some cached => cached
    | none =>
      let schema2 := schema.setRef (some newRef)
      match akm metadata schema2 with
      | some updated => updated
      | none => original
  | none =>
    match schema.node with
    | .defRefNode sref =>
      match defs.lookup sref with
      | some target =>
        let newRef := sref ++ "_" ++ reprAnn metadata
        match defs.lookup newRef with
        | some cached => cached
        | none =>
          let schema3 := target.setRef (some newRef)
          match akm metadata schema3 with
          | some updated => updated
          | none => original
      | none =>
        match akm metadata schema with
        | some updated => updated
        | none => original
    | _ =>
      match akm metadata schema with
      | some updated => updated
      | none => original

mutual
/-- `_apply_single_annotation`: a `FieldInfo` metadata item recurses over its
own metadata list and then applies its discriminator (if any); for a
`nullable` schema, metadata is applied to the inner schema; otherwise the
ref-handling/known-metadata tail runs. -/
def applySingleAnn (akm : Ann → CoreSchema → Option CoreSchema)
    (applyDisc : CoreSchema → String → Except DiscErr CoreSchema)
    (defs : List (String × CoreSchema)) :
    CoreSchema → Ann → Except DiscErr CoreSchema
  | schema, .fieldInfoAnn (.mk metaList disc _dflt _dfac _vd) =>
    match applySingleAnnList akm applyDisc defs schema metaList with
    | .error e => .error e
    | .ok schema2 =>
      match disc with
      | some d => applyDiscriminatorToUnion applyDisc schema2 (some d)
      | none => .ok schema2
  | .mk (.nullableNode inner) r s t p, metadata =>
    match applySingleAnn akm applyDisc defs inner metadata with
    | .error e => .error e
    | .ok inner2 => .ok (.mk (.nullableNode inner2) r s t p)
  | schema, metadata => .ok (applySingleAnnCore akm defs schema metadata)
termination_by schema ann => (sizeOf ann, sizeOf schema)

/-- The `for field_metadata in metadata.metadata` loop of the `FieldInfo`
branch of `_apply_single_annotation`. -/
def applySingleAnnList (akm : Ann → CoreSchema → Option CoreSchema)
    (applyDisc : CoreSchema → String → Except DiscErr CoreSchema)
    (defs : List (String × CoreSchema)) :
    CoreSchema → List Ann → Except DiscErr CoreSchema
  | schema, [] => .ok schema
  | schema, a :: rest =>
    match applySingleAnn akm applyDisc defs schema a with
    | .error e => .error e
    | .ok s2 => applySingleAnnList akm applyDisc defs s2 rest
termination_by schema anns => (sizeOf anns, sizeOf schema)
end

/-- A core-schema handler (`GetCoreSchemaHandler`): source type to schema. -/
abbrev Handler := PyType → Except DiscErr CoreSchema

/-- `getattr(annotation, '__get_pydantic_core_schema__', None) or (lambda
source, handler: handler(source))`: validator annotation classes
(`BeforeValidator` and friends) wrap the handler result in the corresponding
validator function schema (the field name those classes read from the handler
is not modelled); every other modelled metadata falls back to
`handler(source)`. -/
def metadataGetSchema (ann : Ann) (source : PyType) (handler : Handler) :
    Except DiscErr CoreSchema :=
  match ann with
  | .validatorWrapAnn mode info fid =>
    match handler source with
    | .error e => .error e
    | .ok s => .ok (validatorFMatch mode info fid s none)
  | _ => handler source

/-- `_get_wrapped_inner_schema`: the new handler builds the metadata schema,
then runs `_apply_single_annotation`
(`_apply_single_annotation_json_schema` only touches the JSON-schema metadata
bag, which is outside the modelled state). -/
def getWrappedInnerSchema (akm : Ann → CoreSchema → Option CoreSchema)
    (applyDisc : CoreSchema → String → Except DiscErr CoreSchema)
    (defs : List (String × CoreSchema)) (getInnerSchema : Handler) (ann : Ann) :
    Handler :=
  fun source =>
    match metadataGetSchema ann source getInnerSchema with
    | .error e => .error e
    | .ok schema => applySingleAnn akm applyDisc defs schema ann

/-- The handler fold of `_apply_annotations` (lines 2067-2074): one wrapper
per metadata item, in declaration order. -/
def applyAnnsHandler (akm : Ann → CoreSchema → Option CoreSchema)
    (applyDisc : CoreSchema → String → Except DiscErr CoreSchema)
    (defs : List (String × CoreSchema)) (inner : Handler) (anns : List Ann) :
    Handler :=
  anns.foldl (fun h a => getWrappedInnerSchema akm applyDisc defs h a) inner

/-- `_apply_annotations` restricted to the modelled state: fold the handler
wrappers over the metadata, then invoke the outermost handler on the source
type. (`expand_grouped_metadata`, the known-type annotation preparation and
the JSON metadata accumulation are outside this fragment; the `json_encoders`
dependence of the full function is modelled separately in
`applyAnnsForField`.) -/
def applyAnns (akm : Ann → CoreSchema → Option CoreSchema)
    (applyDisc : CoreSchema → String → Except DiscErr CoreSchema)
    (defs : List (String × CoreSchema)) (inner : Handler) (anns : List Ann)
    (source : PyType) : Except DiscErr CoreSchema :=
  applyAnnsHandler akm applyDisc defs inner anns source

/-- One metadata item's effect on an already-built result: the
`__get_pydantic_core_schema__` wrapping followed by
`_apply_single_annotation`. -/
def applyOneAnn (akm : Ann → CoreSchema → Option CoreSchema)
    (applyDisc : CoreSchema → String → Except DiscErr CoreSchema)
    (defs : List (String × CoreSchema)) (ann : Ann)
    (r : Except DiscErr CoreSchema) : Except DiscErr CoreSchema :=
  match r with
  | .error e => .error e
  | .ok s =>
    match ann with
    | .validatorWrapAnn mode info fid =>
      applySingleAnn akm applyDisc defs (validatorFMatch mode info fid s none) ann
    | _ => applySingleAnn akm applyDisc defs s ann

/-- The outermost validator wrapper's callable id. -/
def outerValidatorId : CoreSchema → Option Nat
  | .mk (.functionNode _ _ fid _ _) _ _ _ _ => some fid
  | _ => none

def c6AnnA : Ann := .validatorWrapAnn .before false 1

def c6AnnB : Ann := .validatorWrapAnn .before false 2

def c6Akm : Ann → CoreSchema → Option CoreSchema := fun _ _ => none

def c6Disc : CoreSchema → String → Except DiscErr CoreSchema :=
  fun _ _ => .error .missingDefinitionForUnionRef

def c6Inner : Handler := fun _ => .ok (mkS .intNode)

/-- C6: metadata is folded strictly left to right over the base schema — for
a two-item list `[a, b]` the result is `b`'s transform applied to `a`'s
transform of the base (first conjunct), and appending an item transforms the
result of the shorter fold (second conjunct). For the concrete wrapping
metadata pair `c6AnnA`/`c6AnnB`, `[A, B]` produces `B(A(base))` while
`[B, A]` produces `A(B(base))`, and the two results differ — the fold is
order-sensitive. -/
theorem metadata_fold_left_to_right_order_sensitive :
    (∀ (akm : Ann → CoreSchema → Option CoreSchema)
        (ad : CoreSchema → String → Except DiscErr CoreSchema)
        (defs : List (String × CoreSchema)) (inner : Handler) (a b : Ann)
        (src : PyType),
      applyAnns akm ad defs inner [a, b] src
        = applyOneAnn akm ad defs b (applyOneAnn akm ad defs a (inner src)))
    ∧ (∀ (akm : Ann → CoreSchema → Option CoreSchema)
        (ad : CoreSchema → String → Except DiscErr CoreSchema)
        (defs : List (String × CoreSchema)) (inner : Handler) (anns : List Ann)
        (a : Ann) (src : PyType),
      applyAnns akm ad defs inner (anns ++ [a]) src
        = applyOneAnn akm ad defs a (applyAnns akm ad defs inner anns src))
    ∧ applyAnns c6Akm c6Disc [] c6Inner [c6AnnA, c6AnnB] .intTy
        = .ok (mkS (.functionNode .before .noInfo 2
            (some (mkS (.functionNode .before .noInfo 1 (some (mkS .intNode)) none))) none))
    ∧ applyAnns c6Akm c6Disc [] c6Inner [c6AnnB, c6AnnA] .intTy
        = .ok (mkS (.functionNode .before .noInfo 1
            (some (mkS (.functionNode .before .noInfo 2 (some (mkS .intNode)) none))) none))
    ∧ applyAnns c6Akm c6Disc [] c6Inner [c6AnnA, c6AnnB] .intTy
        ≠ applyAnns c6Akm c6Disc [] c6Inner [c6AnnB, c6AnnA] .intTy := by
  have hwrap : ∀ (akm : Ann → CoreSchema → Option CoreSchema)
      (ad : CoreSchema → String → Except DiscErr CoreSchema)
      (defs : List (String × CoreSchema)) (h : Handler) (a : Ann) (src : PyType),
      getWrappedInnerSchema akm ad defs h a src = applyOneAnn akm ad defs a (h src) := by
    intro akm ad defs h a src
    cases a <;>
      (cases hh : h src <;>
        simp [getWrappedInnerSchema, metadataGetSchema, applyOneAnn, hh])
  have e1 : applyAnns c6Akm c6Disc [] c6Inner [c6AnnA, c6AnnB] .intTy
      = .ok (mkS (.functionNode .before .noInfo 2
          (some (mkS (.functionNode .before .noInfo 1 (some (mkS .intNode)) none))) none)) := by
    simp [applyAnns, applyAnnsHandler, getWrappedInnerSchema, metadataGetSchema,
      applySingleAnn, applySingleAnnCore, c6Akm, c6Disc, c6Inner, c6AnnA, c6AnnB,
      validatorFMatch, mkS, CoreSchema.ref, CoreSchema.node]
  have e2 : applyAnns c6Akm c6Disc [] c6Inner [c6AnnB, c6AnnA] .intTy
      = .ok (mkS (.functionNode .before .noInfo 1
          (some (mkS (.functionNode .before .noInfo 2 (some (mkS .intNode)) none))) none)) := by
    simp [applyAnns, applyAnnsHandler, getWrappedInnerSchema, metadataGetSchema,
      applySingleAnn, applySingleAnnCore, c6Akm, c6Disc, c6Inner, c6AnnA, c6AnnB,
      validatorFMatch, mkS, CoreSchema.ref, CoreSchema.node]
  refine ⟨?_, ?_, e1, e2, ?_⟩
  · intro akm ad defs inner a b src
    simp only [applyAnns, applyAnnsHandler, List.foldl_cons, List.foldl_nil]
    rw [hwrap, hwrap]
  · intro akm ad defs inner anns a src
    simp only [applyAnns, applyAnnsHandler, List.foldl_append, List.foldl_cons,
      List.foldl_nil]
    rw [hwrap]
  · rw [e1, e2]
    intro h
    exact absurd (congrArg outerValidatorId (Except.ok.inj h)) (by decide)

/-- C10: when metadata must specialize a `ref`-bearing or definition-reference
schema, the shared definition is copied and re-keyed under the derived ref
`ref + '_' + repr(metadata)` — which never equals the original ref (first
conjunct) — before `apply_known_metadata` runs, so the definition registered
under the original ref is untouched (the translated function only reads the
definition table); if the derived ref is already in the table the cached copy
is returned, for every possible `apply_known_metadata`, i.e. without
rebuilding (third conjunct); a definition-reference schema whose target is in
the table gets the same copy-and-re-key treatment applied to the target
(fourth conjunct); and when the metadata is not a known constraint the
original schema is returned unchanged (fifth conjunct). -/
theorem metadata_specialization_rekeys_shared_definitions :
    (∀ (r : String) (ann : Ann), r ++ "_" ++ reprAnn ann ≠ r)
    ∧ (∀ (akm : Ann → CoreSchema → Option CoreSchema)
        (ad : CoreSchema → String → Except DiscErr CoreSchema)
        (defs : List (String × CoreSchema)) (schema : CoreSchema) (ann : Ann)
        (r : String) (s2 : CoreSchema),
      schema.ref = some r →
      schema.typeName ≠ "nullable" →
      ann.isFieldInfoAnn = false →
      defs.lookup (r ++ "_" ++ reprAnn ann) = none →
      akm ann (schema.setRef (some (r ++ "_" ++ reprAnn ann))) = some s2 →
      applySingleAnn akm ad defs schema ann = .ok s2)
    ∧ (∀ (akm : Ann → CoreSchema → Option CoreSchema)
        (ad : CoreSchema → String → Except DiscErr CoreSchema)
        (defs : List (String × CoreSchema)) (schema : CoreSchema) (ann : Ann)
        (r : String) (cached : CoreSchema),
      schema.ref = some r →
      schema.typeName ≠ "nullable" →
      ann.isFieldInfoAnn = false →
      defs.lookup (r ++ "_" ++ reprAnn ann) = some cached →
      applySingleAnn akm ad defs schema ann = .ok cached)
    ∧ (∀ (akm : Ann → CoreSchema → Option CoreSchema)
        (ad : CoreSchema → String → Except DiscErr CoreSchema)
        (defs : List (String × CoreSchema)) (sref : String) (ann : Ann)
        (target s2 : CoreSchema),
      ann.isFieldInfoAnn = false →
      defs.lookup sref = some target →
      defs.lookup (sref ++ "_" ++ reprAnn ann) = none →
      akm ann (target.setRef (some (sref ++ "_" ++ reprAnn ann))) = some s2 →
      applySingleAnn akm ad defs (defRefSchema sref) ann = .ok s2)
    ∧ (∀ (akm : Ann → CoreSchema → Option CoreSchema)
        (ad : CoreSchema → String → Except DiscErr CoreSchema)
        (defs : List (String × CoreSchema)) (schema : CoreSchema) (ann : Ann)
        (r : String),
      schema.ref = some r →
      schema.typeName ≠ "nullable" →
      ann.isFieldInfoAnn = false →
      defs.lookup (r ++ "_" ++ reprAnn ann) = none →
      akm ann (schema.setRef (some (r ++ "_" ++ reprAnn ann))) = none →
      applySingleAnn akm ad defs schema ann = .ok schema) := by
  refine ⟨?_, ?_, ?_, ?_, ?_⟩
  · intro r ann h
    have hlen := congrArg String.length h
    rw [String.length_append, String.length_append] at hlen
    have hu : ("_" : String).length = 1 := rfl
    rw [hu] at hlen
    omega
  · intro akm ad defs schema ann r s2 href hnull hfi hlook hakm
    obtain ⟨node, r0, sr0, t0, p0⟩ := schema
    have hr0 : r0 = some r := href
    subst hr0
    simp only [CoreSchema.setRef] at hakm
    cases ann <;>
      first
        | (cases node <;>
            first
              | (exact absurd rfl hnull)
              | (simp [applySingleAnn, applySingleAnnCore, CoreSchema.ref,
                  CoreSchema.node, CoreSchema.setRef, hlook, hakm]
                 done))
        | (simp [Ann.isFieldInfoAnn] at hfi)
  · intro akm ad defs schema ann r cached href hnull hfi hlook
    obtain ⟨node, r0, sr0, t0, p0⟩ := schema
    have hr0 : r0 = some r := href
    subst hr0
    cases ann <;>
      first
        | (cases node <;>
            first
              | (exact absurd rfl hnull)
              | (simp [applySingleAnn, applySingleAnnCore, CoreSchema.ref,
                  CoreSchema.node, CoreSchema.setRef, hlook]
                 done))
        | (simp [Ann.isFieldInfoAnn] at hfi)
  · intro akm ad defs sref ann target s2 hfi htarget hlook hakm
    simp only [CoreSchema.setRef] at hakm
    cases ann <;>
      first
        | (simp [applySingleAnn, applySingleAnnCore, defRefSchema, mkS, CoreSchema.ref,
            CoreSchema.node, CoreSchema.setRef, htarget, hlook, hakm]
           done)
        | (simp [Ann.isFieldInfoAnn] at hfi)
  · intro akm ad defs schema ann r href hnull hfi hlook hakm
    obtain ⟨node, r0, sr0, t0, p0⟩ := schema
    have hr0 : r0 = some r := href
    subst hr0
    simp only [CoreSchema.setRef] at hakm
    cases ann <;>
      first
        | (cases node <;>
            first
              | (exact absurd rfl hnull)
              | (simp [applySingleAnn, applySingleAnnCore, CoreSchema.ref,
                  CoreSchema.node, CoreSchema.setRef, hlook, hakm]
                 done))
        | (simp [Ann.isFieldInfoAnn] at hfi)

def c10Akm : Ann → CoreSchema → Option CoreSchema := fun _ s => some s

def c10AkmNone : Ann → CoreSchema → Option CoreSchema := fun _ _ => none

/-- Witness for `metadata_specialization_rekeys_shared_definitions`: a
ref-bearing `int` schema specialized by known metadata is re-keyed under the
derived ref, and when the derived ref is already in the table the cached copy
comes back regardless of the known-metadata function. -/
theorem metadata_specialization_rekeys_shared_definitions_witness :
    applySingleAnn c10Akm c6Disc [] (CoreSchema.mk .intNode (some "ref:Int") none none none)
        (.knownAnn 5)
      = .ok (CoreSchema.mk .intNode
          (some ("ref:Int" ++ "_" ++ reprAnn (.knownAnn 5))) none none none)
    ∧ applySingleAnn c10AkmNone c6Disc
        [("ref:Int" ++ "_" ++ reprAnn (Ann.knownAnn 5), mkS .noneNode)]
        (CoreSchema.mk .intNode (some "ref:Int") none none none) (.knownAnn 5)
      = .ok (mkS .noneNode) :=
  ⟨metadata_specialization_rekeys_shared_definitions.2.1 c10Akm c6Disc []
      (CoreSchema.mk .intNode (some "ref:Int") none none none) (.knownAnn 5) "ref:Int"
      (CoreSchema.mk .intNode
        (some ("ref:Int" ++ "_" ++ reprAnn (.knownAnn 5))) none none none)
      rfl (by decide) rfl rfl rfl,
    metadata_specialization_rekeys_shared_definitions.2.2.1 c10AkmNone c6Disc
      [("ref:Int" ++ "_" ++ reprAnn (Ann.knownAnn 5), mkS .noneNode)]
      (CoreSchema.mk .intNode (some "ref:Int") none none none) (.knownAnn 5) "ref:Int"
      (mkS .noneNode) rfl (by decide) rfl rfl⟩

/-! ## Graph finalization (`clean_schema`) and deferred discriminators -/

/-- `GenerateSchema.collect_definitions`: a `ref`-bearing root is stored in
the definition table and replaced by a reference node; the result is a
`definitions` schema over the table's values. (Python tests `if ref:` by
truthiness; the empty-string-ref edge case is not modelled.) -/
def collectDefinitions (defs : List (String × CoreSchema)) (schema : CoreSchema) :
    CoreSchema × List (String × CoreSchema) :=
  let defs2 :=
    match schema.ref with
    | some r => insertDef defs r schema
    | none => defs
  let schema2 :=
    match schema.ref with
    | some r => defRefSchema r
    | none => schema
  (mkS (.definitionsNode schema2 (defs2.map Prod.snd)), defs2)

/-- Modelled from the spec: `simplify_schema_references` (from `_core_utils`,
not under `src/`) is the identity on the modelled fragment. -/
def simplifySchemaReferences (schema : CoreSchema) : CoreSchema := schema

/-- Modelled from the spec: `validate_core_schema` (external, not under
`src/`) is the identity on the modelled fragment. -/
def validateCoreSchema (schema : CoreSchema) : CoreSchema := schema

/-- Modelled from the spec: `collect_invalid_schemas` (from `_core_utils`,
not under `src/`) — the modelled fragment builds no invalid-marker nodes, so
the check never fires. -/
def collectInvalidSchemas (_schema : CoreSchema) : Bool := false

/-- Modelled from the spec: one step of the finalization walk — a node
carrying the pending-discriminator marker recorded by
`set_discriminator_in_metadata` has discrimination reapplied. -/
def resolvePendingDisc (applyDisc : CoreSchema → String → Except DiscErr CoreSchema)
    (schema : CoreSchema) : Except DiscErr CoreSchema :=
  match schema.pendingDisc with
  | some d => applyDisc (schema.setPendingDisc none) d
  | none => .ok schema

/-- The finalization walk over the collected definitions list. -/
def resolvePendingList (applyDisc : CoreSchema → String → Except DiscErr CoreSchema) :
    List CoreSchema → Except DiscErr (List CoreSchema)
  | [] => .ok []
  | x :: rest =>
    match resolvePendingDisc applyDisc x with
    | .error e => .error e
    | .ok y =>
      match resolvePendingList applyDisc rest with
      | .error e => .error e
      | .ok ys => .ok (y :: ys)

/-- Modelled from the spec: `_discriminated_union.apply_discriminators` (not
under `src/`) walks the graph after all definitions are collected and
reapplies discrimination wherever a pending marker was recorded; the walk is
modelled on the root and the collected definitions list. -/
def applyDiscriminators (applyDisc : CoreSchema → String → Except DiscErr CoreSchema)
    (schema : CoreSchema) : Except DiscErr CoreSchema :=
  match schema with
  | .mk (.definitionsNode inner ds) r s t p =>
    match resolvePendingDisc applyDisc inner with
    | .error e => .error e
    | .ok inner2 =>
      match resolvePendingList applyDisc ds with
      | .error e => .error e
      | .ok ds2 => .ok (.mk (.definitionsNode inner2 ds2) r s t p)
  | sc => resolvePendingDisc applyDisc sc

/-- `GenerateSchema.clean_schema`: collect definitions, simplify references,
check for invalid markers, reapply pending discriminators, validate. -/
def cleanSchema (applyDisc : CoreSchema → String → Except DiscErr CoreSchema)
    (defs : List (String × CoreSchema)) (schema : CoreSchema) :
    Except DiscErr CoreSchema :=
  let (schema1, _defs2) := collectDefinitions defs schema
  let schema2 := simplifySchemaReferences schema1
  if collectInvalidSchemas schema2 then .error (.userErr "CollectedInvalid")
  else
    match applyDiscriminators applyDisc schema2 with
    | .error e => .error e
    | .ok schema3 => .ok (validateCoreSchema schema3)

theorem resolvePendingList_no_pending
    (ad : CoreSchema → String → Except DiscErr CoreSchema) (l : List CoreSchema)
    (h : ∀ x ∈ l, x.pendingDisc = none) : resolvePendingList ad l = .ok l := by
  induction l with
  | nil => rfl
  | cons x rest ih =>
    have hx : x.pendingDisc = none := h x (List.mem_cons_self _ _)
    have hr := ih (fun y hy => h y (List.mem_cons_of_mem _ hy))
    simp [resolvePendingList, resolvePendingDisc, hx, hr]

/-- C8: applying a discriminator to a union never fails the compilation when
member definitions are not yet resolvable — a `None` discriminator is a no-op
(first conjunct); successful immediate application is returned (second);
`MissingDefinitionForUnionRef` is caught and the requirement recorded as
pending metadata on the union schema (third, including the recorded marker);
every other error propagates unmodified (fourth); and the graph-finalization
pass (`clean_schema`) reapplies discrimination after all definitions are
collected, resolving the pending marker (fifth). -/
theorem discriminator_deferral_and_error_propagation :
    (∀ (ad : CoreSchema → String → Except DiscErr CoreSchema) (schema : CoreSchema),
      applyDiscriminatorToUnion ad schema none = .ok schema)
    ∧ (∀ (ad : CoreSchema → String → Except DiscErr CoreSchema)
        (schema s2 : CoreSchema) (d : String),
      ad schema d = .ok s2 →
      applyDiscriminatorToUnion ad schema (some d) = .ok s2)
    ∧ (∀ (ad : CoreSchema → String → Except DiscErr CoreSchema)
        (schema : CoreSchema) (d : String),
      ad schema d = .error .missingDefinitionForUnionRef →
      applyDiscriminatorToUnion ad schema (some d)
          = .ok (setDiscriminatorInMetadata schema d)
        ∧ (setDiscriminatorInMetadata schema d).pendingDisc = some d)
    ∧ (∀ (ad : CoreSchema → String → Except DiscErr CoreSchema)
        (schema : CoreSchema) (d msg : String),
      ad schema d = .error (.userErr msg) →
      applyDiscriminatorToUnion ad schema (some d) = .error (.userErr msg))
    ∧ (∀ (ad : CoreSchema → String → Except DiscErr CoreSchema)
        (defs : List (String × CoreSchema)) (u s2 : CoreSchema) (d : String),
      u.pendingDisc = none →
      u.ref = none →
      (∀ x ∈ defs.map Prod.snd, x.pendingDisc = none) →
      ad u d = .ok s2 →
      cleanSchema ad defs (setDiscriminatorInMetadata u d)
        = .ok (mkS (.definitionsNode s2 (defs.map Prod.snd)))) := by
  refine ⟨?_, ?_, ?_, ?_, ?_⟩
  · intro ad schema
    rfl
  · intro ad schema s2 d h
    simp [applyDiscriminatorToUnion, h]
  · intro ad schema d h
    constructor
    · simp [applyDiscriminatorToUnion, h]
    · obtain ⟨n, r0, s0, t0, p0⟩ := schema
      rfl
  · intro ad schema d msg h
    simp [applyDiscriminatorToUnion, h]
  · intro ad defs u s2 d hp hr hdefs had
    obtain ⟨n, r0, s0, t0, p0⟩ := u
    have hr0 : r0 = none := hr
    have hp0 : p0 = none := hp
    subst hr0
    subst hp0
    have hlist : resolvePendingList ad (defs.map Prod.snd) = .ok (defs.map Prod.snd) :=
      resolvePendingList_no_pending ad _ hdefs
    simp [cleanSchema, collectDefinitions, setDiscriminatorInMetadata,
      CoreSchema.setPendingDisc, CoreSchema.ref, simplifySchemaReferences,
      collectInvalidSchemas, applyDiscriminators, resolvePendingDisc,
      CoreSchema.pendingDisc, validateCoreSchema, hlist, had, mkS]

def c8Union : CoreSchema := mkS (.unionNode [defRefSchema "model:M"])

def c8Disc : CoreSchema → String → Except DiscErr CoreSchema :=
  fun _ d => .ok (mkS (.taggedUnionNode d []))

/-- Witness for `discriminator_deferral_and_error_propagation`: an
unresolvable union gets the pending marker rather than an error, and the
finalization pass then resolves a recorded marker against a collected
definition table. -/
theorem discriminator_deferral_and_error_propagation_witness :
    applyDiscriminatorToUnion c6Disc c8Union (some "kind")
      = .ok (setDiscriminatorInMetadata c8Union "kind")
    ∧ cleanSchema c8Disc [("model:M", mkS .intNode)]
        (setDiscriminatorInMetadata (mkS (.unionNode [])) "kind")
      = .ok (mkS (.definitionsNode (mkS (.taggedUnionNode "kind" [])) [mkS .intNode])) :=
  ⟨(discriminator_deferral_and_error_propagation.2.2.1 c6Disc c8Union "kind" rfl).1,
    discriminator_deferral_and_error_propagation.2.2.2.2 c8Disc
      [("model:M", mkS .intNode)] (mkS (.unionNode [])) (mkS (.taggedUnionNode "kind" []))
      "kind" rfl rfl
      (by
        intro x hx
        simp at hx
        subst hx
        rfl)
      rfl⟩

/-! ## Defaults (`wrap_default`, `_annotated_schema`, the
`_common_field_schema` tail) -/

/-- `wrap_default` (lines 2367-2389): a truthy `default_factory` wins, then a
`default` other than `PydanticUndefined`; otherwise the schema is returned
unwrapped. -/
def wrapDefault (fi : FieldInfoA) (schema : CoreSchema) : CoreSchema :=
  match fi.defaultFactory with
  | some (fid, takesData) =>
    mkS (.withDefaultNode schema (.fromFactory fid takesData) fi.validateDefault)
  | none =>
    match fi.default with
    | some v => mkS (.withDefaultNode schema (.fromValue v) fi.validateDefault)
    | none => schema

/-- Modelled from the spec: `FieldInfo.is_required` (defined in `fields.py`,
outside `src/`) — a field is required iff it has neither a default value nor
a default factory. -/
def FieldInfoA.isRequired (fi : FieldInfoA) : Bool :=
  fi.default.isNone && fi.defaultFactory.isNone

/-- One step of the trailing default loop of `_annotated_schema`: only
`FieldInfo` metadata items wrap a default. -/
def defaultWrapStep (s : CoreSchema) (a : Ann) : CoreSchema :=
  match a with
  | .fieldInfoAnn fi => wrapDefault fi s
  | _ => s

/-- `_annotated_schema` (lines 1987-2001): run the metadata fold, then — so
that default-value lookup works even under function validators — wrap the
default of every `FieldInfo` metadata item last, in metadata order,
regardless of its position in the list. -/
def annotatedSchema (akm : Ann → CoreSchema → Option CoreSchema)
    (applyDisc : CoreSchema → String → Except DiscErr CoreSchema)
    (defs : List (String × CoreSchema)) (inner : Handler) (source : PyType)
    (anns : List Ann) : Except DiscErr CoreSchema :=
  match applyAnns akm applyDisc defs inner anns source with
  | .error e => .error e
  | .ok schema => .ok (anns.foldl defaultWrapStep schema)

/-- The post-annotation tail of `_common_field_schema` (lines 1292-1309):
split off the `each_item=True` V1 validators and push them down, apply the
remaining V1 validators, wrap the default last — outside every validator —
only when the field is not required, then apply field serializers. (The
`validate_default` forcing of `_validators_require_validate_default` mutates
the field info and is not modelled.) -/
def commonFieldTail (fi : FieldInfoA) (decs : List ValidatorDec)
    (sers : List FieldSerDec) (defs : List (String × CoreSchema))
    (name : String) (schema : CoreSchema) :
    Except PyErr (CoreSchema × List (String × CoreSchema)) :=
  let eachItem := decs.filter (fun v => v.eachItem)
  let thisField := decs.filter (fun v => !v.eachItem)
  match applyEachItemValidators schema eachItem (some name) with
  | .error e => .error e
  | .ok schema1 =>
    let schema2 := applyValidators schema1 thisField (some name)
    let schema3 := if !fi.isRequired then wrapDefault fi schema2 else schema2
    .ok (applyFieldSerializers defs schema3 sers)

theorem getWrappedInnerSchema_congr (akm : Ann → CoreSchema → Option CoreSchema)
    (ad : CoreSchema → String → Except DiscErr CoreSchema)
    (defs : List (String × CoreSchema)) (h1 h2 : Handler) (a : Ann)
    (hpt : ∀ s, h1 s = h2 s) (src : PyType) :
    getWrappedInnerSchema akm ad defs h1 a src
      = getWrappedInnerSchema akm ad defs h2 a src := by
  cases a <;> simp [getWrappedInnerSchema, metadataGetSchema, hpt src]

theorem applyAnnsHandler_congr (akm : Ann → CoreSchema → Option CoreSchema)
    (ad : CoreSchema → String → Except DiscErr CoreSchema)
    (defs : List (String × CoreSchema)) (anns : List Ann) :
    ∀ (h1 h2 : Handler), (∀ s, h1 s = h2 s) →
      ∀ src, applyAnnsHandler akm ad defs h1 anns src
        = applyAnnsHandler akm ad defs h2 anns src := by
  induction anns with
  | nil =>
    intro h1 h2 hpt src
    exact hpt src
  | cons a rest ih =>
    intro h1 h2 hpt src
    simp only [applyAnnsHandler, List.foldl_cons]
    exact ih _ _ (fun s => getWrappedInnerSchema_congr akm ad defs h1 h2 a hpt s) src

/-- A `FieldInfo` metadata item with no constraints and no discriminator is
transparent to the handler fold: it contributes no wrapping (its default is
handled by the trailing loop of `_annotated_schema` instead). -/
theorem fieldInfo_empty_wrapper_id (akm : Ann → CoreSchema → Option CoreSchema)
    (ad : CoreSchema → String → Except DiscErr CoreSchema)
    (defs : List (String × CoreSchema)) (h : Handler) (dflt : Option PyVal)
    (dfac : Option (Nat × Bool)) (vd : Bool) (src : PyType) :
    getWrappedInnerSchema akm ad defs h (.fieldInfoAnn (.mk [] none dflt dfac vd)) src
      = h src := by
  cases hh : h src <;>
    simp [getWrappedInnerSchema, metadataGetSchema, applySingleAnn, applySingleAnnList,
      applyDiscriminatorToUnion, hh]

theorem defaultWrapStep_id_of_no_fieldInfo (l : List Ann)
    (h : ∀ a ∈ l, a.isFieldInfoAnn = false) (s : CoreSchema) :
    l.foldl defaultWrapStep s = s := by
  induction l generalizing s with
  | nil => rfl
  | cons a rest ih =>
    have ha : a.isFieldInfoAnn = false := h a (List.mem_cons_self _ _)
    have hstep : defaultWrapStep s a = s := by
      cases a <;> simp [defaultWrapStep] <;> simp [Ann.isFieldInfoAnn] at ha
    rw [List.foldl_cons, hstep]
    exact ih (fun x hx => h x (List.mem_cons_of_mem _ hx)) s

/-- C5: the default wrapper is applied last and sits outermost. First two
conjuncts: `wrap_default` with a factory (resp. a defined default value)
produces a `with-default` node whose inner schema is exactly the schema it
was given; third: a field with neither default nor factory is returned
unwrapped; fourth/fifth: in the `_common_field_schema` tail the default
wrapper goes on after every each-item and field validator (and is skipped for
required fields); sixth: applying field serializers only fills the
serialization slot and leaves the outermost `with-default` node in place;
seventh: in `_annotated_schema` the default of a `FieldInfo` metadata item is
applied after the whole metadata fold, regardless of the item's position in
the list. -/
theorem default_wrapper_applied_last_outermost :
    (∀ (fi : FieldInfoA) (schema : CoreSchema) (fid : Nat) (td : Bool),
      fi.defaultFactory = some (fid, td) →
      wrapDefault fi schema
        = mkS (.withDefaultNode schema (.fromFactory fid td) fi.validateDefault))
    ∧ (∀ (fi : FieldInfoA) (schema : CoreSchema) (v : PyVal),
      fi.defaultFactory = none → fi.default = some v →
      wrapDefault fi schema
        = mkS (.withDefaultNode schema (.fromValue v) fi.validateDefault))
    ∧ (∀ (fi : FieldInfoA) (schema : CoreSchema),
      fi.isRequired = true → wrapDefault fi schema = schema)
    ∧ (∀ (fi : FieldInfoA) (decs : List ValidatorDec) (sers : List FieldSerDec)
        (defs : List (String × CoreSchema)) (name : String) (schema schema1 : CoreSchema),
      applyEachItemValidators schema (decs.filter (fun v => v.eachItem)) (some name)
          = .ok schema1 →
      fi.isRequired = false →
      commonFieldTail fi decs sers defs name schema
        = .ok (applyFieldSerializers defs
            (wrapDefault fi
              (applyValidators schema1 (decs.filter (fun v => !v.eachItem)) (some name)))
            sers))
    ∧ (∀ (fi : FieldInfoA) (decs : List ValidatorDec) (sers : List FieldSerDec)
        (defs : List (String × CoreSchema)) (name : String) (schema schema1 : CoreSchema),
      applyEachItemValidators schema (decs.filter (fun v => v.eachItem)) (some name)
          = .ok schema1 →
      fi.isRequired = true →
      commonFieldTail fi decs sers defs name schema
        = .ok (applyFieldSerializers defs
            (applyValidators schema1 (decs.filter (fun v => !v.eachItem)) (some name))
            sers))
    ∧ (∀ (defs : List (String × CoreSchema)) (inner : CoreSchema) (d : DefaultSpec)
        (vd : Bool) (sers : List FieldSerDec),
      (applyFieldSerializers defs (mkS (.withDefaultNode inner d vd)) sers).1.node
        = .withDefaultNode inner d vd)
    ∧ (∀ (akm : Ann → CoreSchema → Option CoreSchema)
        (ad : CoreSchema → String → Except DiscErr CoreSchema)
        (defs : List (String × CoreSchema)) (inner : Handler) (src : PyType)
        (xs ys : List Ann) (dflt : Option PyVal) (dfac : Option (Nat × Bool)) (vd : Bool),
      (∀ a ∈ xs, a.isFieldInfoAnn = false) →
      (∀ a ∈ ys, a.isFieldInfoAnn = false) →
      annotatedSchema akm ad defs inner src
          (xs ++ .fieldInfoAnn (.mk [] none dflt dfac vd) :: ys)
        = (applyAnns akm ad defs inner (xs ++ ys) src).map
            (wrapDefault (.mk [] none dflt dfac vd))) := by
  refine ⟨?_, ?_, ?_, ?_, ?_, ?_, ?_⟩
  · intro fi schema fid td h
    obtain ⟨m, disc, d0, f0, v0⟩ := fi
    have : f0 = some (fid, td) := h
    subst this
    rfl
  · intro fi schema v hf hd
    obtain ⟨m, disc, d0, f0, v0⟩ := fi
    have h1 : f0 = none := hf
    have h2 : d0 = some v := hd
    subst h1
    subst h2
    rfl
  · intro fi schema h
    obtain ⟨m, disc, d0, f0, v0⟩ := fi
    simp [FieldInfoA.isRequired, FieldInfoA.default, FieldInfoA.defaultFactory,
      Option.isNone_iff_eq_none] at h
    obtain ⟨h1, h2⟩ := h
    subst h1
    subst h2
    rfl
  · intro fi decs sers defs name schema schema1 heach hreq
    simp [commonFieldTail, heach, hreq]
  · intro fi decs sers defs name schema schema1 heach hreq
    simp [commonFieldTail, heach, hreq]
  · intro defs inner d vd sers
    cases sers with
    | nil => rfl
    | cons s0 rest =>
      simp [applyFieldSerializers, CoreSchema.ref, mkS, CoreSchema.setSerialization,
        CoreSchema.node]
  · intro akm ad defs inner src xs ys dflt dfac vd hxs hys
    have hsplit : applyAnnsHandler akm ad defs inner
          (xs ++ .fieldInfoAnn (.mk [] none dflt dfac vd) :: ys) src
        = applyAnnsHandler akm ad defs inner (xs ++ ys) src := by
      simp only [applyAnnsHandler, List.foldl_append, List.foldl_cons]
      exact applyAnnsHandler_congr akm ad defs ys _ _
        (fun s => fieldInfo_empty_wrapper_id akm ad defs _ dflt dfac vd s) src
    cases hres : applyAnns akm ad defs inner (xs ++ ys) src with
    | error e =>
      have : applyAnns akm ad defs inner
          (xs ++ .fieldInfoAnn (.mk [] none dflt dfac vd) :: ys) src = .error e := by
        rw [applyAnns, hsplit]
        exact hres
      simp [annotatedSchema, this, hres, Except.map]
    | ok schema =>
      have hflip : applyAnns akm ad defs inner
          (xs ++ .fieldInfoAnn (.mk [] none dflt dfac vd) :: ys) src = .ok schema := by
        rw [applyAnns, hsplit]
        exact hres
      have h1 : xs.foldl defaultWrapStep schema = schema :=
        defaultWrapStep_id_of_no_fieldInfo xs hxs schema
      have h2 : ys.foldl defaultWrapStep
            (wrapDefault (.mk [] none dflt dfac vd) schema)
          = wrapDefault (.mk [] none dflt dfac vd) schema :=
        defaultWrapStep_id_of_no_fieldInfo ys hys _
      simp [annotatedSchema, hflip, hres, List.foldl_append, List.foldl_cons, h1,
        defaultWrapStep, h2, Except.map]

def c5Fi : FieldInfoA := .mk [] none (some (.intVal 5)) none false

def c5Akm : Ann → CoreSchema → Option CoreSchema := fun _ s => some s

def c5Disc : CoreSchema → String → Except DiscErr CoreSchema := fun s _ => .ok s

def c5Inner : Handler := fun _ => .ok (mkS .intNode)

/-- Witness for C5 at concrete inputs: a field with default `5` and no
factory gets a `with-default` wrapper; a required field is left unwrapped;
the `_common_field_schema` tail applies the wrapper after the (empty)
validator passes; and in `_annotated_schema` a leading `FieldInfo` default is
still applied after the whole metadata fold. -/
theorem default_wrapper_applied_last_outermost_witness :
    (c5Fi.defaultFactory = none ∧ c5Fi.default = some (.intVal 5)
      ∧ wrapDefault c5Fi (mkS .intNode)
          = mkS (.withDefaultNode (mkS .intNode) (.fromValue (.intVal 5)) false))
    ∧ ((FieldInfoA.mk [] none none none false).isRequired = true
      ∧ wrapDefault (.mk [] none none none false) (mkS .intNode) = mkS .intNode)
    ∧ (applyEachItemValidators (mkS .intNode)
          (([] : List ValidatorDec).filter (fun v => v.eachItem)) (some "f")
          = .ok (mkS .intNode)
      ∧ c5Fi.isRequired = false
      ∧ commonFieldTail c5Fi [] [] [] "f" (mkS .intNode)
          = .ok (applyFieldSerializers []
              (wrapDefault c5Fi
                (applyValidators (mkS .intNode)
                  (([] : List ValidatorDec).filter (fun v => !v.eachItem)) (some "f")))
              []))
    ∧ (applyEachItemValidators (mkS .intNode)
          (([] : List ValidatorDec).filter (fun v => v.eachItem)) (some "f")
          = .ok (mkS .intNode)
      ∧ (FieldInfoA.mk [] none none none false).isRequired = true
      ∧ commonFieldTail (.mk [] none none none false) [] [] [] "f" (mkS .intNode)
          = .ok (applyFieldSerializers []
              (applyValidators (mkS .intNode)
                (([] : List ValidatorDec).filter (fun v => !v.eachItem)) (some "f"))
              []))
    ∧ ((∀ a ∈ ([] : List Ann), a.isFieldInfoAnn = false)
      ∧ annotatedSchema c5Akm c5Disc [] c5Inner .intTy
            ([] ++ .fieldInfoAnn (.mk [] none (some (.intVal 5)) none false) :: [])
          = (applyAnns c5Akm c5Disc [] c5Inner ([] ++ []) .intTy).map
              (wrapDefault (.mk [] none (some (.intVal 5)) none false))) := by
  refine ⟨⟨rfl, rfl, ?_⟩, ⟨rfl, ?_⟩, ⟨rfl, rfl, ?_⟩, ⟨rfl, rfl, ?_⟩, ⟨?_, ?_⟩⟩
  · exact default_wrapper_applied_last_outermost.2.1 c5Fi (mkS .intNode) (.intVal 5) rfl rfl
  · exact default_wrapper_applied_last_outermost.2.2.1 (.mk [] none none none false)
      (mkS .intNode) rfl
  · exact default_wrapper_applied_last_outermost.2.2.2.1 c5Fi [] [] [] "f"
      (mkS .intNode) (mkS .intNode) rfl rfl
  · exact default_wrapper_applied_last_outermost.2.2.2.2.1 (.mk [] none none none false)
      [] [] [] "f" (mkS .intNode) (mkS .intNode) rfl rfl
  · intro a ha
    simp at ha
  · exact default_wrapper_applied_last_outermost.2.2.2.2.2.2 c5Akm c5Disc [] c5Inner
      .intTy [] [] (some (.intVal 5)) none false (by simp) (by simp)
